import Mathlib

/-!
Verification of the overlay core of phonk-wl (`src/app.rs`): the software
alpha-blend routine `draw`, the show/hide toggle `App::toggle_overlay`, the
layer-surface `configure` handler, and the random file pickers
`random_image` / `random_audio`.

Modelling conventions:
* `usize` arithmetic uses release-mode (wrapping) semantics, written
  explicitly as reduction modulo 2^64 wherever the source expression can
  underflow or overflow (the centering offsets `(width - img_width) / 2`).
* Rust `f32` arithmetic in the blend formula is modelled exactly over `ℚ`;
  the `as u8` cast is the saturating truncation toward zero that Rust
  defines for float-to-int casts.
* Panics (out-of-bounds slice indexing, `%` by zero on an empty directory
  listing, aborted handlers) are modelled by `Option`/`none`.
* The Wayland, image-decoding and audio collaborators are modelled as an
  emitted trace of `Act`s; the pixel work itself is `draw`.
-/

/-- 2^64, the modulus of 64-bit `usize` arithmetic. -/
def U64 : Nat := 18446744073709551616

/-- Wrapping reduction of a `usize` value. -/
def wrap (n : Nat) : Nat := n % U64

/-- Wrapping `usize` subtraction `a - b` (release-mode Rust semantics). -/
def wsub (a b : Nat) : Nat := (a % U64 + (U64 - b % U64)) % U64

/-- Saturating cast of an f32 value (modelled in `ℚ`) to `u8`: Rust `as u8`
truncates toward zero and saturates into `0..=255`. -/
def toU8 (q : ℚ) : Nat := min 255 (max 0 ⌊q⌋).toNat

/-- The source-over divisor `out_a = sa + da * (1.0 - sa)` (app.rs:283). -/
def outAlpha (sa da : ℚ) : ℚ := sa + da * (1 - sa)

/-- The source-over channel formula
`(sc*sa + dc*da*(1.0-sa)) / out_a` (app.rs:284-286). -/
def srcOver (sc sa dc da : ℚ) : ℚ := (sc * sa + dc * da * (1 - sa)) / outAlpha sa da

/-- Byte `k` (mod 4) of the fixed backdrop pixel `128,128,128,196` written by
the `chunks_exact_mut(4)` fill (app.rs:246-251). -/
def bdByte (k : Nat) : Nat := if k % 4 = 3 then 196 else 128

/-- The backdrop fill pass of `draw` (app.rs:246-251): every byte of every
complete 4-byte chunk is overwritten with the backdrop pixel; a trailing
partial chunk (never present when the length is `width*height*4`) is kept. -/
def bdFill (canvas : List Nat) : List Nat :=
  (List.range canvas.length).map fun i =>
    if i < 4 * (canvas.length / 4) then bdByte i else canvas.getD i 0

/-- A decoded RGBA8 image (`ImageBuffer<Rgba<u8>, Vec<u8>>`): `pixels` is the
row-major byte list, 4 bytes per pixel in R,G,B,A order. -/
structure Image where
  width : Nat
  height : Nat
  pixels : List Nat
  deriving DecidableEq, Repr

/-- The blend of one foreground pixel into the canvas (app.rs:278-291):
read the destination pixel (canvas byte order B,G,R,A at `dst_i+0..3`),
apply the source-over formula, and write the four truncated results back.
A read outside the canvas is a panic, modelled as `none`. -/
def blendPixel (canvas : List Nat) (dstI : Nat) (sr sg sb saB : Nat) :
    Option (List Nat) :=
  (canvas[dstI + 2]?).bind fun dr =>
  (canvas[dstI + 1]?).bind fun dg =>
  (canvas[dstI + 0]?).bind fun db =>
  (canvas[dstI + 3]?).bind fun daB =>
  let sa : ℚ := (saB : ℚ) / 255
  let da : ℚ := (daB : ℚ) / 255
  some ((((canvas.set (dstI + 2) (toU8 (srcOver (sr : ℚ) sa (dr : ℚ) da))).set
    (dstI + 1) (toU8 (srcOver (sg : ℚ) sa (dg : ℚ) da))).set
    (dstI + 0) (toU8 (srcOver (sb : ℚ) sa (db : ℚ) da))).set
    (dstI + 3) (toU8 (outAlpha sa da * 255)))

/-- One iteration of the inner loop of `draw` (app.rs:257-292) for foreground
pixel `(x, y)`: compute the wrapped destination coordinates, skip if the
destination is outside the canvas, skip if the source alpha byte is zero
(`sa == 0.0` in f32 exactly when the byte is 0), otherwise blend. -/
def drawPixel (img : Image) (W H ox oy : Nat) (canvas : List Nat) (y x : Nat) :
    Option (List Nat) :=
  let srcI := wrap (wrap (wrap (y * img.width) + x) * 4)
  let dstX := wrap (ox + x)
  let dstY := wrap (oy + y)
  if W ≤ dstX ∨ H ≤ dstY then some canvas
  else
    let dstI := wrap (wrap (wrap (dstY * W) + dstX) * 4)
    (img.pixels[srcI + 0]?).bind fun sr =>
    (img.pixels[srcI + 1]?).bind fun sg =>
    (img.pixels[srcI + 2]?).bind fun sb =>
    (img.pixels[srcI + 3]?).bind fun saB =>
    if saB = 0 then some canvas else blendPixel canvas dstI sr sg sb saB

/-- One row of the nested loop of `draw`: `for x in 0..img_width`. -/
def drawRow (img : Image) (W H ox oy : Nat) (y : Nat) (canvas : List Nat) :
    Option (List Nat) :=
  (List.range img.width).foldlM (fun c x => drawPixel img W H ox oy c y x) canvas

/-- The nested pixel loop of `draw`: `for y in 0..img_height`. -/
def drawLoop (img : Image) (W H ox oy : Nat) (canvas : List Nat) :
    Option (List Nat) :=
  (List.range img.height).foldlM (fun c y => drawRow img W H ox oy y c) canvas

/-- The full `draw` routine (app.rs:241-294): backdrop-fill the canvas,
compute the (wrapping) centering offsets
`offset_x = (width - img_width) / 2`, `offset_y = (height - img_height) / 2`,
then blend every foreground pixel. `none` models a panic. -/
def draw (canvas : List Nat) (W H : Nat) (img : Image) : Option (List Nat) :=
  let ox := wsub W img.width / 2
  let oy := wsub H img.height / 2
  drawLoop img W H ox oy (bdFill canvas)

/-- Observable calls the app makes into its Wayland / audio collaborators. -/
inductive Act where
  | sinkStop : Act
  | attachNone : Nat → Act
  | setSizeZero : Nat → Act
  | pickImage : Nat → Act
  | pickAudio : Nat → Act
  | resizePool : Nat → Act
  | attachBuffer : Nat → Nat → Nat → Act
  | damageSurface : Nat → Nat → Nat → Act
  | commitSurface : Nat → Act
  | drawCanvas : Nat → Nat → Nat → Act
  | sinkAppend : Nat → Act
  | sinkPlay : Act
  deriving DecidableEq, Repr

/-- The controller state of `App` (app.rs:23-38): the registered layer
surfaces (keyed by an output identity), the shown flag, the last configured
size, and the selected image/audio paths. Paths and outputs are abstracted
as naturals. -/
structure AppState where
  layer_surfaces : List Nat
  shown : Bool
  width : Nat
  height : Nat
  image_path : Option Nat
  audio_path : Option Nat
  deriving DecidableEq, Repr

/-- The loop body of `App::toggle_overlay` (app.rs:72-85) for one layer
surface: reading the (not yet flipped) `shown` flag, either stop the sink and
attach a null buffer, or clear the selected paths and request size (0,0). -/
def toggleStep (acc : AppState × List Act) (out : Nat) : AppState × List Act :=
  if acc.1.shown then
    (acc.1, acc.2 ++ [Act.sinkStop, Act.attachNone out])
  else
    ({ acc.1 with image_path := none, audio_path := none },
     acc.2 ++ [Act.setSizeZero out])

/-- `App::toggle_overlay` (app.rs:71-88): run the loop body over every
registered layer surface, then flip the `shown` flag. -/
def toggle_overlay (s : AppState) : AppState × List Act :=
  let r := s.layer_surfaces.foldl toggleStep (s, [])
  ({ r.1 with shown := !r.1.shown }, r.2)

/-- `random_image` (app.rs:296-306): list the image directory and index it at
`rng.next_u32() as usize % file_paths.len()`. On an empty directory the `%`
is a remainder by zero, which panics: modelled as `none`. -/
def random_image (files : List Nat) (r : Nat) : Option Nat :=
  if files.length = 0 then none else files[r % files.length]?

/-- `random_audio` (app.rs:308-318): same selection over the audio
directory. -/
def random_audio (files : List Nat) (r : Nat) : Option Nat :=
  if files.length = 0 then none else files[r % files.length]?

/-- The `LayerShellHandler::configure` handler (app.rs:129-177): pick an
image path if none is selected, pick an audio path if none is selected,
record the new size, resize the pool (`stride = width*4`, `size =
stride*height`), create and attach a buffer, damage and commit, decode and
draw the selected image, then append the audio and play. The returned trace
lists the collaborator calls made before a panic (`none` result) aborts the
handler. -/
def configure (s : AppState) (out : Nat) (newSize : Nat × Nat)
    (imgFiles audFiles : List Nat) (r1 r2 : Nat) :
    List Act × Option AppState :=
  let imgStep : Option Nat × List Act :=
    match s.image_path with
    | some p => (some p, [])
    | none =>
      match random_image imgFiles r1 with
      | some p => (some p, [Act.pickImage p])
      | none => (none, [])
  match imgStep with
  | (none, tr1) => (tr1, none)
  | (some imgP, tr1) =>
    let audStep : Option Nat × List Act :=
      match s.audio_path with
      | some p => (some p, [])
      | none =>
        match random_audio audFiles r2 with
        | some p => (some p, [Act.pickAudio p])
        | none => (none, [])
    match audStep with
    | (none, tr2) => (tr1 ++ tr2, none)
    | (some audP, tr2) =>
      let w := newSize.1
      let h := newSize.2
      (tr1 ++ tr2 ++
        [Act.resizePool (w * 4 * h), Act.attachBuffer out w h,
         Act.damageSurface out w h, Act.commitSurface out,
         Act.drawCanvas imgP w h, Act.sinkAppend audP, Act.sinkPlay],
       some { s with image_path := some imgP, audio_path := some audP,
                     width := w, height := h })

/-- Number of `sink.stop()` calls in a trace. -/
def stopCount (tr : List Act) : Nat :=
  tr.countP fun a => decide (a = Act.sinkStop)

/-- Whether an action is an `attach(Some(buffer))` submission. -/
def isAttachBuffer : Act → Bool
  | Act.attachBuffer _ _ _ => true
  | _ => false

/-- Whether an action is a random-path pick. -/
def isPick : Act → Bool
  | Act.pickImage _ => true
  | Act.pickAudio _ => true
  | _ => false

/-- The trace emitted by the shown branch of the toggle loop, in order. -/
def stopTrace : List Nat → List Act
  | [] => []
  | o :: rest => Act.sinkStop :: Act.attachNone o :: stopTrace rest

theorem foldl_toggleStep_shown (surfs : List Nat) : ∀ (st : AppState)
    (tr : List Act), st.shown = true →
    surfs.foldl toggleStep (st, tr) = (st, tr ++ stopTrace surfs) := by
  induction surfs with
  | nil => intro st tr h; simp [stopTrace]
  | cons o rest ih =>
    intro st tr h
    simp only [List.foldl_cons]
    rw [show toggleStep (st, tr) o = (st, tr ++ [Act.sinkStop, Act.attachNone o])
      from by simp [toggleStep, h]]
    rw [ih st _ h]
    simp [stopTrace]

theorem foldl_toggleStep_hidden (surfs : List Nat) : ∀ (st : AppState)
    (tr : List Act), st.shown = false → st.image_path = none →
    st.audio_path = none →
    surfs.foldl toggleStep (st, tr) = (st, tr ++ surfs.map Act.setSizeZero) := by
  induction surfs with
  | nil => intro st tr _ _ _; simp
  | cons o rest ih =>
    intro st tr h hi ha
    simp only [List.foldl_cons]
    rw [show toggleStep (st, tr) o
      = ({ st with image_path := none, audio_path := none }, tr ++ [Act.setSizeZero o])
      from by simp [toggleStep, h]]
    rw [show ({ st with image_path := none, audio_path := none } : AppState) = st
      from by cases st; simp_all]
    rw [ih st _ h hi ha]
    simp

theorem stopCount_stopTrace (surfs : List Nat) :
    stopCount (stopTrace surfs) = surfs.length := by
  induction surfs with
  | nil => rfl
  | cons o rest ih => simp [stopTrace, stopCount, List.countP_cons] at ih ⊢; omega

theorem attachNone_mem_stopTrace (surfs : List Nat) (o : Nat) (h : o ∈ surfs) :
    Act.attachNone o ∈ stopTrace surfs := by
  induction surfs with
  | nil => cases h
  | cons a rest ih =>
    rcases List.mem_cons.mp h with h1 | h2
    · subst h1; simp [stopTrace]
    · simp [stopTrace, ih h2]

/-- Helper: a toggle from the hidden state with at least one registered
output clears the selected paths, emits one set_size(0,0) per output and
flips the flag to shown. -/
theorem toggle_hidden_spec (s : AppState) (h1 : s.shown = false)
    (h2 : s.layer_surfaces ≠ []) :
    (toggle_overlay s).1.image_path = none ∧
    (toggle_overlay s).1.audio_path = none ∧
    (toggle_overlay s).1.shown = true ∧
    (toggle_overlay s).2 = s.layer_surfaces.map Act.setSizeZero := by
  obtain ⟨o, rest, hor⟩ : ∃ o rest, s.layer_surfaces = o :: rest := by
    cases hs : s.layer_surfaces with
    | nil => exact absurd hs h2
    | cons o rest => exact ⟨o, rest, rfl⟩
  unfold toggle_overlay
  rw [hor, List.foldl_cons]
  rw [show toggleStep (s, []) o
    = ({ s with image_path := none, audio_path := none }, [Act.setSizeZero o])
    from by simp [toggleStep, h1]]
  rw [foldl_toggleStep_hidden rest { s with image_path := none, audio_path := none } _ h1 rfl rfl]
  simp [h1]

/-- C1 (amended): from a state with at least one registered output and the
overlay shown, `toggle()` calls `stop()` once per registered output (so
`n` times for `n` outputs, not exactly once overall), detaches every
registered output's buffer, flips the flag to hidden, and leaves the
selected image/audio paths unchanged — they are not cleared on this
transition. They are instead cleared at the start of the next
(hidden-to-shown) toggle, so the next transition still picks fresh random
paths. -/
theorem toggle_shown_per_output (s : AppState) (h1 : s.shown = true)
    (h2 : s.layer_surfaces ≠ []) :
    stopCount (toggle_overlay s).2 = s.layer_surfaces.length ∧
    (∀ o ∈ s.layer_surfaces, Act.attachNone o ∈ (toggle_overlay s).2) ∧
    (toggle_overlay s).1.image_path = s.image_path ∧
    (toggle_overlay s).1.audio_path = s.audio_path ∧
    (toggle_overlay s).1.shown = false ∧
    (toggle_overlay (toggle_overlay s).1).1.image_path = none ∧
    (toggle_overlay (toggle_overlay s).1).1.audio_path = none := by
  have hto : toggle_overlay s = ({ s with shown := false }, stopTrace s.layer_surfaces) := by
    unfold toggle_overlay
    rw [foldl_toggleStep_shown s.layer_surfaces s [] h1]
    simp [h1]
  have hhid := toggle_hidden_spec { s with shown := false } (by simp) (by simpa using h2)
  rw [hto]
  refine ⟨stopCount_stopTrace _, fun o ho => attachNone_mem_stopTrace _ o ho,
    rfl, rfl, rfl, hhid.1, hhid.2.1⟩

/-- C1 witness: a concrete shown state with two registered outputs. -/
theorem toggle_shown_per_output_witness :
    ((⟨[0, 1], true, 800, 600, some 5, some 7⟩ : AppState).shown = true ∧
      (⟨[0, 1], true, 800, 600, some 5, some 7⟩ : AppState).layer_surfaces ≠ []) ∧
    (stopCount (toggle_overlay ⟨[0, 1], true, 800, 600, some 5, some 7⟩).2
        = (⟨[0, 1], true, 800, 600, some 5, some 7⟩ : AppState).layer_surfaces.length ∧
      (∀ o ∈ (⟨[0, 1], true, 800, 600, some 5, some 7⟩ : AppState).layer_surfaces,
        Act.attachNone o ∈ (toggle_overlay ⟨[0, 1], true, 800, 600, some 5, some 7⟩).2) ∧
      (toggle_overlay ⟨[0, 1], true, 800, 600, some 5, some 7⟩).1.image_path
        = (⟨[0, 1], true, 800, 600, some 5, some 7⟩ : AppState).image_path ∧
      (toggle_overlay ⟨[0, 1], true, 800, 600, some 5, some 7⟩).1.audio_path
        = (⟨[0, 1], true, 800, 600, some 5, some 7⟩ : AppState).audio_path ∧
      (toggle_overlay ⟨[0, 1], true, 800, 600, some 5, some 7⟩).1.shown = false ∧
      (toggle_overlay (toggle_overlay ⟨[0, 1], true, 800, 600, some 5, some 7⟩).1).1.image_path = none ∧
      (toggle_overlay (toggle_overlay ⟨[0, 1], true, 800, 600, some 5, some 7⟩).1).1.audio_path = none) :=
  ⟨⟨by decide, by decide⟩,
    toggle_shown_per_output ⟨[0, 1], true, 800, 600, some 5, some 7⟩ (by decide) (by decide)⟩

/-- C1 counterexample: in a shown state with two registered outputs and a
selection in place, the claimed behavior — exactly one `stop()` call and
both selected paths cleared to `None` before returning — is false: the code
calls `stop()` once per output and does not clear the paths on the
shown-to-hidden transition. -/
theorem toggle_shown_claim_false :
    ¬ (stopCount (toggle_overlay ⟨[0, 1], true, 800, 600, some 5, some 7⟩).2 = 1 ∧
      (toggle_overlay ⟨[0, 1], true, 800, 600, some 5, some 7⟩).1.image_path = none ∧
      (toggle_overlay ⟨[0, 1], true, 800, 600, some 5, some 7⟩).1.audio_path = none) := by
  decide

/-- C2 (amended): the configure handler never consults the shown flag. On
any state — hidden included — whose processing completes, it attaches a
buffer sized to the new geometry and starts audio playback, and the emitted
trace is identical for either value of the shown flag. -/
theorem configure_attaches_and_plays (s : AppState) (out : Nat)
    (sz : Nat × Nat) (imgF audF : List Nat) (r1 r2 : Nat) (s' : AppState)
    (h : (configure s out sz imgF audF r1 r2).2 = some s') :
    Act.attachBuffer out sz.1 sz.2 ∈ (configure s out sz imgF audF r1 r2).1 ∧
    Act.sinkPlay ∈ (configure s out sz imgF audF r1 r2).1 ∧
    ∀ b, (configure { s with shown := b } out sz imgF audF r1 r2).1
      = (configure s out sz imgF audF r1 r2).1 := by
  rcases hip : s.image_path with _ | p
  · rcases hri : random_image imgF r1 with _ | p
    · exfalso
      unfold configure at h
      simp [hip, hri] at h
    · rcases hap : s.audio_path with _ | q
      · rcases hra : random_audio audF r2 with _ | q
        · exfalso
          unfold configure at h
          simp [hip, hri, hap, hra] at h
        · unfold configure
          simp [hip, hri, hap, hra]
      · unfold configure
        simp [hip, hri, hap]
  · rcases hap : s.audio_path with _ | q
    · rcases hra : random_audio audF r2 with _ | q
      · exfalso
        unfold configure at h
        simp [hip, hap, hra] at h
      · unfold configure
        simp [hip, hap, hra]
    · unfold configure
      simp [hip, hap]

/-- C2 witness: a hidden state with no selection, nonempty directories. -/
theorem configure_attaches_and_plays_witness :
    (configure ⟨[0], false, 0, 0, none, none⟩ 0 (8, 8) [11, 12] [21] 1 0).2
      = some ⟨[0], false, 8, 8, some 12, some 21⟩ ∧
    (Act.attachBuffer 0 8 8 ∈ (configure ⟨[0], false, 0, 0, none, none⟩ 0 (8, 8) [11, 12] [21] 1 0).1 ∧
      Act.sinkPlay ∈ (configure ⟨[0], false, 0, 0, none, none⟩ 0 (8, 8) [11, 12] [21] 1 0).1 ∧
      ∀ b, (configure ⟨[0], b, 0, 0, none, none⟩ 0 (8, 8) [11, 12] [21] 1 0).1
        = (configure ⟨[0], false, 0, 0, none, none⟩ 0 (8, 8) [11, 12] [21] 1 0).1) :=
  ⟨by decide,
    configure_attaches_and_plays ⟨[0], false, 0, 0, none, none⟩ 0 (8, 8)
      [11, 12] [21] 1 0 ⟨[0], false, 8, 8, some 12, some 21⟩ (by decide)⟩

/-- C2 counterexample: processing a configure event in a concrete hidden
state does attach a buffer for presentation and does start audio playback,
so the claim that this never happens while hidden is false. -/
theorem configure_hidden_claim_false :
    (⟨[0], false, 0, 0, none, none⟩ : AppState).shown = false ∧
    ¬ (Act.attachBuffer 0 8 8 ∉ (configure ⟨[0], false, 0, 0, none, none⟩ 0 (8, 8) [11, 12] [21] 1 0).1 ∧
      Act.sinkPlay ∉ (configure ⟨[0], false, 0, 0, none, none⟩ 0 (8, 8) [11, 12] [21] 1 0).1) := by
  decide

/-- C8 (confirmed): a configure event processed while an image and an audio
path are already selected redraws at the new size with those same paths and
performs no random pick; selection happens in the handler only when the
stored path is `None`. -/
theorem configure_no_repick (s : AppState) (out : Nat) (sz : Nat × Nat)
    (imgF audF : List Nat) (r1 r2 : Nat) (p q : Nat)
    (hp : s.image_path = some p) (hq : s.audio_path = some q) :
    configure s out sz imgF audF r1 r2 =
      ([Act.resizePool (sz.1 * 4 * sz.2), Act.attachBuffer out sz.1 sz.2,
        Act.damageSurface out sz.1 sz.2, Act.commitSurface out,
        Act.drawCanvas p sz.1 sz.2, Act.sinkAppend q, Act.sinkPlay],
       some { s with image_path := some p, audio_path := some q,
                     width := sz.1, height := sz.2 }) ∧
    ∀ a ∈ (configure s out sz imgF audF r1 r2).1, isPick a = false := by
  have hc : configure s out sz imgF audF r1 r2 =
      ([Act.resizePool (sz.1 * 4 * sz.2), Act.attachBuffer out sz.1 sz.2,
        Act.damageSurface out sz.1 sz.2, Act.commitSurface out,
        Act.drawCanvas p sz.1 sz.2, Act.sinkAppend q, Act.sinkPlay],
       some { s with image_path := some p, audio_path := some q,
                     width := sz.1, height := sz.2 }) := by
    unfold configure
    simp [hp, hq]
  refine ⟨hc, ?_⟩
  rw [hc]
  intro a ha
  fin_cases ha <;> rfl

/-- C8 witness: a shown session in progress with paths 5 and 7, reconfigured
to 4x4. -/
theorem configure_no_repick_witness :
    ((⟨[0], true, 8, 8, some 5, some 7⟩ : AppState).image_path = some 5 ∧
      (⟨[0], true, 8, 8, some 5, some 7⟩ : AppState).audio_path = some 7) ∧
    (configure ⟨[0], true, 8, 8, some 5, some 7⟩ 0 (4, 4) [11, 12] [21] 1 0 =
      ([Act.resizePool (4 * 4 * 4), Act.attachBuffer 0 4 4,
        Act.damageSurface 0 4 4, Act.commitSurface 0,
        Act.drawCanvas 5 4 4, Act.sinkAppend 7, Act.sinkPlay],
       some ⟨[0], true, 4, 4, some 5, some 7⟩) ∧
      ∀ a ∈ (configure ⟨[0], true, 8, 8, some 5, some 7⟩ 0 (4, 4) [11, 12] [21] 1 0).1,
        isPick a = false) :=
  ⟨⟨rfl, rfl⟩,
    configure_no_repick ⟨[0], true, 8, 8, some 5, some 7⟩ 0 (4, 4)
      [11, 12] [21] 1 0 5 7 rfl rfl⟩

/-- C9 (confirmed): on an empty directory listing both random pickers hit a
remainder-by-zero panic instead of returning a path, and a configure event
that needs a pick therefore aborts with an empty trace — in particular
before any buffer-attach is emitted. -/
theorem empty_dir_fatal (imgF : List Nat) (hE : imgF = []) (r : Nat)
    (s : AppState) (hs : s.image_path = none) (out : Nat) (sz : Nat × Nat)
    (audF : List Nat) (r2 : Nat) :
    random_image imgF r = none ∧ random_audio imgF r = none ∧
    configure s out sz imgF audF r r2 = ([], none) ∧
    ∀ a ∈ (configure s out sz imgF audF r r2).1, isAttachBuffer a = false := by
  subst hE
  have hc : configure s out sz [] audF r r2 = ([], none) := by
    unfold configure
    simp [hs, random_image]
  exact ⟨rfl, rfl, hc, by rw [hc]; intro a ha; cases ha⟩

/-- C9 witness: the empty image directory with a hidden, unselected state. -/
theorem empty_dir_fatal_witness :
    (([] : List Nat) = [] ∧
      (⟨[0], false, 0, 0, none, none⟩ : AppState).image_path = none) ∧
    (random_image [] 3 = none ∧ random_audio [] 3 = none ∧
      configure ⟨[0], false, 0, 0, none, none⟩ 0 (8, 8) [] [21] 3 0 = ([], none) ∧
      ∀ a ∈ (configure ⟨[0], false, 0, 0, none, none⟩ 0 (8, 8) [] [21] 3 0).1,
        isAttachBuffer a = false) :=
  ⟨⟨rfl, rfl⟩,
    empty_dir_fatal [] rfl 3 ⟨[0], false, 0, 0, none, none⟩ rfl 0 (8, 8) [21] 0⟩

theorem bdFill_length (c : List Nat) : (bdFill c).length = c.length := by
  simp [bdFill]

theorem bdFill_getElem? (c : List Nat) (i : Nat) (h : i < c.length) :
    (bdFill c)[i]? = some (if i < 4 * (c.length / 4) then bdByte i else c.getD i 0) := by
  simp [bdFill, List.getElem?_map, List.getElem?_range h]

theorem bdFill_getElem?_backdrop (c : List Nat) (W H : Nat)
    (hc : c.length = W * H * 4) (i : Nat) (h : i < c.length) :
    (bdFill c)[i]? = some (bdByte i) := by
  rw [bdFill_getElem? c i h, if_pos]
  rw [hc]
  have h4 : W * H * 4 / 4 = W * H := Nat.mul_div_cancel (W * H) (by norm_num)
  rw [h4]
  omega

theorem outAlpha_pos_of (sa da : ℚ) (h0 : 0 < sa) (h1 : sa ≤ 1) (h2 : 0 ≤ da) :
    0 < outAlpha sa da := by
  unfold outAlpha
  nlinarith

/-- C4 (confirmed): the backdrop fill writes the non-zero alpha byte 196 to
every destination alpha position, and for any foreground alpha byte that
survives the zero-alpha skip (`saB ≠ 0`) the source-over divisor
`out_a = sa + da * (1 - sa)` over such a destination is strictly positive,
so the division in the blend formula never divides by zero. -/
theorem outAlpha_never_zero (saB : Nat) (h1 : saB ≠ 0) (h2 : saB ≤ 255) :
    (∀ (c : List Nat) (W H i : Nat), c.length = W * H * 4 → i < c.length →
      i % 4 = 3 → (bdFill c)[i]? = some 196) ∧
    0 < outAlpha ((saB : ℚ) / 255) ((196 : ℚ) / 255) := by
  constructor
  · intro c W H i hc hi h3
    rw [bdFill_getElem?_backdrop c W H hc i hi]
    simp [bdByte, h3]
  · apply outAlpha_pos_of
    · apply div_pos _ (by norm_num)
      exact_mod_cast Nat.pos_of_ne_zero h1
    · rw [div_le_one (by norm_num)]
      exact_mod_cast h2
    · norm_num

/-- C4 witness: foreground alpha byte 128 over the fixed backdrop. -/
theorem outAlpha_never_zero_witness :
    ((128 : Nat) ≠ 0 ∧ (128 : Nat) ≤ 255) ∧
    ((∀ (c : List Nat) (W H i : Nat), c.length = W * H * 4 → i < c.length →
      i % 4 = 3 → (bdFill c)[i]? = some 196) ∧
    0 < outAlpha ((128 : ℚ) / 255) ((196 : ℚ) / 255)) :=
  ⟨⟨by decide, by decide⟩, outAlpha_never_zero 128 (by decide) (by decide)⟩

theorem toU8_of_in_range (q : ℚ) (h0 : 0 ≤ q) (h255 : q ≤ 255) :
    toU8 q = ⌊q⌋.toNat ∧ toU8 q ≤ 255 := by
  have hf0 : 0 ≤ ⌊q⌋ := Int.floor_nonneg.mpr h0
  have hf255 : ⌊q⌋ ≤ 255 := by
    calc ⌊q⌋ ≤ ⌊(255 : ℚ)⌋ := Int.floor_le_floor h255
    _ = 255 := by norm_num
  unfold toU8
  rw [max_eq_right hf0]
  constructor
  · exact min_eq_right (by omega)
  · omega

/-- C10 (confirmed, over the exact-rational model of the f32 arithmetic):
for source and destination channel bytes in 0..=255, a source alpha byte
that survives the zero-alpha skip, and a destination alpha in [0,1], the
divisor satisfies 0 < out_a ≤ 1 and each color channel result lies in
[0,255] (it is a convex combination of the source and destination
channels), so the `as u8` truncations of the channels and of `out_a * 255`
are plain floors that never exceed 255. -/
theorem blend_byte_bounds (sc dc saB : Nat) (da : ℚ) (hsc : sc ≤ 255)
    (hdc : dc ≤ 255) (h1 : saB ≠ 0) (h2 : saB ≤ 255) (hda0 : 0 ≤ da)
    (hda1 : da ≤ 1) :
    0 < outAlpha ((saB : ℚ) / 255) da ∧ outAlpha ((saB : ℚ) / 255) da ≤ 1 ∧
    0 ≤ srcOver (sc : ℚ) ((saB : ℚ) / 255) (dc : ℚ) da ∧
    srcOver (sc : ℚ) ((saB : ℚ) / 255) (dc : ℚ) da ≤ 255 ∧
    toU8 (srcOver (sc : ℚ) ((saB : ℚ) / 255) (dc : ℚ) da)
      = ⌊srcOver (sc : ℚ) ((saB : ℚ) / 255) (dc : ℚ) da⌋.toNat ∧
    toU8 (srcOver (sc : ℚ) ((saB : ℚ) / 255) (dc : ℚ) da) ≤ 255 ∧
    toU8 (outAlpha ((saB : ℚ) / 255) da * 255)
      = ⌊outAlpha ((saB : ℚ) / 255) da * 255⌋.toNat ∧
    toU8 (outAlpha ((saB : ℚ) / 255) da * 255) ≤ 255 := by
  have hsa0 : 0 < (saB : ℚ) / 255 := by
    apply div_pos _ (by norm_num)
    exact_mod_cast Nat.pos_of_ne_zero h1
  have hsa1 : (saB : ℚ) / 255 ≤ 1 := by
    rw [div_le_one (by norm_num)]
    exact_mod_cast h2
  have hsc' : (sc : ℚ) ≤ 255 := by exact_mod_cast hsc
  have hdc' : (dc : ℚ) ≤ 255 := by exact_mod_cast hdc
  have hsc0 : (0 : ℚ) ≤ (sc : ℚ) := Nat.cast_nonneg sc
  have hdc0 : (0 : ℚ) ≤ (dc : ℚ) := Nat.cast_nonneg dc
  have hA := outAlpha_pos_of ((saB : ℚ) / 255) da hsa0 hsa1 hda0
  have hA1 : outAlpha ((saB : ℚ) / 255) da ≤ 1 := by
    unfold outAlpha
    nlinarith
  have hN0 : 0 ≤ (sc : ℚ) * ((saB : ℚ) / 255) + (dc : ℚ) * da * (1 - (saB : ℚ) / 255) := by
    have := mul_nonneg hsc0 hsa0.le
    have := mul_nonneg (mul_nonneg hdc0 hda0) (by linarith : (0:ℚ) ≤ 1 - (saB : ℚ) / 255)
    linarith
  have hS0 : 0 ≤ srcOver (sc : ℚ) ((saB : ℚ) / 255) (dc : ℚ) da := by
    unfold srcOver
    exact div_nonneg hN0 hA.le
  have hS255 : srcOver (sc : ℚ) ((saB : ℚ) / 255) (dc : ℚ) da ≤ 255 := by
    unfold srcOver
    rw [div_le_iff₀ hA]
    unfold outAlpha
    nlinarith [mul_nonneg (by linarith : (0:ℚ) ≤ 255 - (sc : ℚ)) hsa0.le,
      mul_nonneg (mul_nonneg (by linarith : (0:ℚ) ≤ 255 - (dc : ℚ)) hda0)
        (by linarith : (0:ℚ) ≤ 1 - (saB : ℚ) / 255)]
  have hAl0 : 0 ≤ outAlpha ((saB : ℚ) / 255) da * 255 := by nlinarith
  have hAl255 : outAlpha ((saB : ℚ) / 255) da * 255 ≤ 255 := by nlinarith
  have hc := toU8_of_in_range _ hS0 hS255
  have ha := toU8_of_in_range _ hAl0 hAl255
  exact ⟨hA, hA1, hS0, hS255, hc.1, hc.2, ha.1, ha.2⟩

/-- C10 witness: source byte 255, destination byte 0, source alpha byte 128,
destination alpha 1. -/
theorem blend_byte_bounds_witness :
    ((255 : Nat) ≤ 255 ∧ (0 : Nat) ≤ 255 ∧ (128 : Nat) ≠ 0 ∧ (128 : Nat) ≤ 255 ∧
      (0 : ℚ) ≤ 1 ∧ (1 : ℚ) ≤ 1) ∧
    (0 < outAlpha ((128 : ℚ) / 255) 1 ∧ outAlpha ((128 : ℚ) / 255) 1 ≤ 1 ∧
    0 ≤ srcOver ((255 : Nat) : ℚ) ((128 : ℚ) / 255) ((0 : Nat) : ℚ) 1 ∧
    srcOver ((255 : Nat) : ℚ) ((128 : ℚ) / 255) ((0 : Nat) : ℚ) 1 ≤ 255 ∧
    toU8 (srcOver ((255 : Nat) : ℚ) ((128 : ℚ) / 255) ((0 : Nat) : ℚ) 1)
      = ⌊srcOver ((255 : Nat) : ℚ) ((128 : ℚ) / 255) ((0 : Nat) : ℚ) 1⌋.toNat ∧
    toU8 (srcOver ((255 : Nat) : ℚ) ((128 : ℚ) / 255) ((0 : Nat) : ℚ) 1) ≤ 255 ∧
    toU8 (outAlpha ((128 : ℚ) / 255) 1 * 255)
      = ⌊outAlpha ((128 : ℚ) / 255) 1 * 255⌋.toNat ∧
    toU8 (outAlpha ((128 : ℚ) / 255) 1 * 255) ≤ 255) :=
  ⟨⟨by decide, by decide, by decide, by decide, zero_le_one, le_refl 1⟩,
    blend_byte_bounds 255 0 128 1 (by decide) (by decide) (by decide) (by decide)
      zero_le_one (le_refl 1)⟩

theorem wrap_eq_of_lt (n : Nat) (h : n < U64) : wrap n = n := Nat.mod_eq_of_lt h

theorem wsub_of_le (a b : Nat) (hba : b ≤ a) (ha : a < U64) : wsub a b = a - b := by
  unfold wsub
  have hb : b < U64 := lt_of_le_of_lt hba ha
  rw [Nat.mod_eq_of_lt hb, Nat.mod_eq_of_lt ha]
  rw [show a + (U64 - b) = U64 + (a - b) by omega, Nat.add_mod_left]
  exact Nat.mod_eq_of_lt (by omega)

theorem wsub_of_gt (a b : Nat) (hab : a < b) (hb : b < U64) (ha : a < U64) :
    wsub a b = U64 - (b - a) := by
  unfold wsub
  rw [Nat.mod_eq_of_lt hb, Nat.mod_eq_of_lt ha]
  rw [show a + (U64 - b) = U64 - (b - a) by omega]
  exact Nat.mod_eq_of_lt (by unfold U64; omega)

/-- In the fits case (foreground no larger than the canvas, canvas byte count
below 2^64) the wrapping arithmetic in `drawPixel` is exact, the destination
is always inside the canvas, and the iteration reduces to the plain reads,
the zero-alpha test and the blend at the exactly-centered destination. -/
theorem drawPixel_eq_fits (img : Image) (W H : Nat)
    (hwW : img.width ≤ W) (hhH : img.height ≤ H) (hcap : W * H * 4 < U64)
    (c : List Nat) (y x : Nat) (hx : x < img.width) (hy : y < img.height) :
    drawPixel img W H ((W - img.width) / 2) ((H - img.height) / 2) c y x =
      (img.pixels[(y * img.width + x) * 4 + 0]?).bind fun sr =>
      (img.pixels[(y * img.width + x) * 4 + 1]?).bind fun sg =>
      (img.pixels[(y * img.width + x) * 4 + 2]?).bind fun sb =>
      (img.pixels[(y * img.width + x) * 4 + 3]?).bind fun saB =>
      if saB = 0 then some c
      else blendPixel c
        ((((H - img.height) / 2 + y) * W + ((W - img.width) / 2 + x)) * 4)
        sr sg sb saB := by
  have h1 : y * img.width + x < img.width * img.height := by
    calc y * img.width + x < y * img.width + img.width := by omega
    _ = (y + 1) * img.width := by ring
    _ ≤ img.height * img.width := Nat.mul_le_mul_right _ (by omega)
    _ = img.width * img.height := Nat.mul_comm _ _
  have h2 : img.width * img.height ≤ W * H := Nat.mul_le_mul hwW hhH
  have h3 : W ≤ W * H := Nat.le_mul_of_pos_right W (by omega)
  have h4 : H ≤ W * H := Nat.le_mul_of_pos_left H (by omega)
  have hdX : (W - img.width) / 2 + x < W := by omega
  have hdY : (H - img.height) / 2 + y < H := by omega
  have h6 : ((H - img.height) / 2 + y) * W + ((W - img.width) / 2 + x) < W * H := by
    calc ((H - img.height) / 2 + y) * W + ((W - img.width) / 2 + x)
        < ((H - img.height) / 2 + y) * W + W := by omega
    _ = (((H - img.height) / 2 + y) + 1) * W := by ring
    _ ≤ H * W := Nat.mul_le_mul_right _ (by omega)
    _ = W * H := Nat.mul_comm _ _
  have h7 : ((H - img.height) / 2 + y) * W ≤ W * H := by omega
  simp only [drawPixel]
  rw [wrap_eq_of_lt (y * img.width) (by omega)]
  rw [wrap_eq_of_lt (y * img.width + x) (by omega)]
  rw [wrap_eq_of_lt ((y * img.width + x) * 4) (by omega)]
  rw [wrap_eq_of_lt ((W - img.width) / 2 + x) (by omega)]
  rw [wrap_eq_of_lt ((H - img.height) / 2 + y) (by omega)]
  rw [wrap_eq_of_lt (((H - img.height) / 2 + y) * W) (by omega)]
  rw [wrap_eq_of_lt (((H - img.height) / 2 + y) * W + ((W - img.width) / 2 + x)) (by omega)]
  rw [wrap_eq_of_lt ((((H - img.height) / 2 + y) * W + ((W - img.width) / 2 + x)) * 4) (by omega)]
  rw [if_neg (by push_neg; exact ⟨by omega, by omega⟩)]

theorem rowcol_lt (a b i j : Nat) (hi : i < a) (hj : j < b) : j * a + i < a * b := by
  calc j * a + i < j * a + a := by omega
  _ = (j + 1) * a := by ring
  _ ≤ b * a := Nat.mul_le_mul_right _ (by omega)
  _ = a * b := Nat.mul_comm _ _

theorem foldlM_opt_inv {α : Type} (f : List Nat → α → Option (List Nat))
    (P : List Nat → Prop) (l : List α)
    (hstep : ∀ cv a, a ∈ l → P cv → ∃ cv', f cv a = some cv' ∧ P cv') :
    ∀ cv, P cv → ∃ cv', l.foldlM f cv = some cv' ∧ P cv' := by
  induction l with
  | nil => intro cv hc; exact ⟨cv, by simp, hc⟩
  | cons a t ih =>
    intro cv hc
    obtain ⟨cv1, hf, hp1⟩ := hstep cv a (List.mem_cons_self a t) hc
    obtain ⟨cv2, hrest, hp2⟩ :=
      ih (fun cv a ha hc => hstep cv a (List.mem_cons_of_mem _ ha) hc) cv1 hp1
    refine ⟨cv2, ?_, hp2⟩
    rw [List.foldlM_cons, hf]
    simpa using hrest

theorem foldlM_opt_pres {α : Type} (f : List Nat → α → Option (List Nat))
    (l : List α) (t : Nat)
    (hstep : ∀ cv a, a ∈ l → ∀ d, f cv a = some d → d[t]? = cv[t]?) :
    ∀ cv d, l.foldlM f cv = some d → d[t]? = cv[t]? := by
  induction l with
  | nil =>
    intro cv d h
    simp at h
    subst h
    rfl
  | cons a l2 ih =>
    intro cv d h
    rw [List.foldlM_cons] at h
    rcases hfa : f cv a with _ | cv1
    · rw [hfa] at h; simp at h
    · rw [hfa] at h
      simp at h
      have h1 := hstep cv a (List.mem_cons_self a l2) cv1 hfa
      have h2 := ih (fun cv a ha e hs => hstep cv a (List.mem_cons_of_mem _ ha) e hs) cv1 d h
      rw [h2, h1]

theorem range_split (n k : Nat) (h : k < n) :
    ∃ A B, List.range n = A ++ k :: B ∧
      (∀ a ∈ A, a < n ∧ a ≠ k) ∧ (∀ b ∈ B, b < n ∧ b ≠ k) := by
  induction n with
  | zero => omega
  | succ m ih =>
    rcases Nat.lt_succ_iff_lt_or_eq.mp h with h1 | h1
    · obtain ⟨A, B, hAB, hA, hB⟩ := ih h1
      refine ⟨A, B ++ [m], ?_, ?_, ?_⟩
      · rw [List.range_succ, hAB]; simp
      · intro a ha
        have := hA a ha
        exact ⟨by omega, this.2⟩
      · intro b hb
        rcases List.mem_append.mp hb with h2 | h2
        · have := hB b h2
          exact ⟨by omega, this.2⟩
        · simp at h2
          subst h2
          exact ⟨by omega, by omega⟩
    · subst h1
      refine ⟨List.range k, [], ?_, ?_, ?_⟩
      · rw [List.range_succ]
      · intro a ha
        have := List.mem_range.mp ha
        exact ⟨by omega, by omega⟩
      · intro b hb
        cases hb

/-- The per-pixel step in the fits case always succeeds, preserves the
canvas length, and leaves every byte outside its own destination pixel
unchanged. -/
theorem drawPixel_step (img : Image) (W H : Nat)
    (hpl : img.pixels.length = img.width * img.height * 4)
    (hwW : img.width ≤ W) (hhH : img.height ≤ H) (hcap : W * H * 4 < U64)
    (cv : List Nat) (hc : cv.length = W * H * 4) (y x : Nat)
    (hx : x < img.width) (hy : y < img.height) :
    ∃ d, drawPixel img W H ((W - img.width) / 2) ((H - img.height) / 2) cv y x = some d ∧
      d.length = W * H * 4 ∧
      ∀ t, t / 4 ≠ ((H - img.height) / 2 + y) * W + ((W - img.width) / 2 + x) →
        d[t]? = cv[t]? := by
  rw [drawPixel_eq_fits img W H hwW hhH hcap cv y x hx hy]
  have hsrcP : y * img.width + x < img.width * img.height :=
    rowcol_lt img.width img.height x y hx hy
  have hsrc : ∀ k, k < 4 → (y * img.width + x) * 4 + k < img.pixels.length := by
    intro k hk
    omega
  obtain ⟨sr, hsr⟩ : ∃ v, img.pixels[(y * img.width + x) * 4 + 0]? = some v :=
    ⟨_, List.getElem?_eq_getElem (hsrc 0 (by omega))⟩
  obtain ⟨sg, hsg⟩ : ∃ v, img.pixels[(y * img.width + x) * 4 + 1]? = some v :=
    ⟨_, List.getElem?_eq_getElem (hsrc 1 (by omega))⟩
  obtain ⟨sb, hsb⟩ : ∃ v, img.pixels[(y * img.width + x) * 4 + 2]? = some v :=
    ⟨_, List.getElem?_eq_getElem (hsrc 2 (by omega))⟩
  obtain ⟨saB, hsaB⟩ : ∃ v, img.pixels[(y * img.width + x) * 4 + 3]? = some v :=
    ⟨_, List.getElem?_eq_getElem (hsrc 3 (by omega))⟩
  rw [hsr, hsg, hsb, hsaB]
  simp only [Option.some_bind]
  by_cases hz : saB = 0
  · rw [if_pos hz]
    exact ⟨cv, rfl, hc, fun t _ => rfl⟩
  · rw [if_neg hz]
    have hdX : (W - img.width) / 2 + x < W := by omega
    have hdY : (H - img.height) / 2 + y < H := by omega
    have hdP : ((H - img.height) / 2 + y) * W + ((W - img.width) / 2 + x) < W * H :=
      rowcol_lt W H ((W - img.width) / 2 + x) ((H - img.height) / 2 + y) hdX hdY
    have hdst : ∀ k, k < 4 →
        (((H - img.height) / 2 + y) * W + ((W - img.width) / 2 + x)) * 4 + k < cv.length := by
      intro k hk
      omega
    unfold blendPixel
    obtain ⟨dr, hdr⟩ : ∃ v,
        cv[(((H - img.height) / 2 + y) * W + ((W - img.width) / 2 + x)) * 4 + 2]? = some v :=
      ⟨_, List.getElem?_eq_getElem (hdst 2 (by omega))⟩
    obtain ⟨dg, hdg⟩ : ∃ v,
        cv[(((H - img.height) / 2 + y) * W + ((W - img.width) / 2 + x)) * 4 + 1]? = some v :=
      ⟨_, List.getElem?_eq_getElem (hdst 1 (by omega))⟩
    obtain ⟨db, hdb⟩ : ∃ v,
        cv[(((H - img.height) / 2 + y) * W + ((W - img.width) / 2 + x)) * 4 + 0]? = some v :=
      ⟨_, List.getElem?_eq_getElem (hdst 0 (by omega))⟩
    obtain ⟨daB, hdaB⟩ : ∃ v,
        cv[(((H - img.height) / 2 + y) * W + ((W - img.width) / 2 + x)) * 4 + 3]? = some v :=
      ⟨_, List.getElem?_eq_getElem (hdst 3 (by omega))⟩
    rw [hdr, hdg, hdb, hdaB]
    simp only [Option.some_bind]
    refine ⟨_, rfl, by simp [List.length_set, hc], ?_⟩
    intro t ht
    have hne : ∀ k, k < 4 →
        (((H - img.height) / 2 + y) * W + ((W - img.width) / 2 + x)) * 4 + k ≠ t := by
      intro k hk
      omega
    rw [List.getElem?_set_ne (hne 3 (by omega)), List.getElem?_set_ne (hne 0 (by omega)),
      List.getElem?_set_ne (hne 1 (by omega)), List.getElem?_set_ne (hne 2 (by omega))]

theorem foldlM_opt_id {α : Type} (f : List Nat → α → Option (List Nat))
    (l : List α) (hstep : ∀ cv a, a ∈ l → f cv a = some cv) :
    ∀ cv, l.foldlM f cv = some cv := by
  induction l with
  | nil => intro cv; simp
  | cons a t ih =>
    intro cv
    rw [List.foldlM_cons, hstep cv a (List.mem_cons_self a t)]
    simpa using ih (fun cv a ha => hstep cv a (List.mem_cons_of_mem _ ha)) cv

/-- When the foreground is strictly wider or strictly taller than the
canvas, the wrapped centering offset places every destination coordinate far
beyond the canvas bound, so every single pixel iteration skips. -/
theorem drawPixel_skip_oversized (img : Image) (W H : Nat) (cv : List Nat)
    (y x : Nat) (hx : x < img.width) (hy : y < img.height)
    (hW32 : W < 2 ^ 32) (hH32 : H < 2 ^ 32)
    (hw32 : img.width < 2 ^ 32) (hh32 : img.height < 2 ^ 32)
    (hbig : W < img.width ∨ H < img.height) :
    drawPixel img W H (wsub W img.width / 2) (wsub H img.height / 2) cv y x
      = some cv := by
  have hU : U64 = 18446744073709551616 := rfl
  simp only [drawPixel]
  rcases hbig with hb | hb
  · rw [wsub_of_gt W img.width hb (by omega) (by omega)]
    rw [wrap_eq_of_lt ((U64 - (img.width - W)) / 2 + x) (by omega)]
    rw [if_pos]
    left
    omega
  · rw [wsub_of_gt H img.height hb (by omega) (by omega)]
    rw [wrap_eq_of_lt ((U64 - (img.height - H)) / 2 + y) (by omega)]
    rw [if_pos]
    right
    omega

/-- C3 (confirmed, release-mode wrapping semantics of the `usize`
subtraction): whenever the foreground is strictly wider or strictly taller
than the canvas, `draw` does not panic and writes nothing beyond the
backdrop fill — the wrapped offset maps every foreground pixel outside the
canvas bounds, so the bounds check skips every write and the result is
exactly the backdrop-filled canvas of unchanged length. -/
theorem draw_oversized_no_panic (canvas : List Nat) (W H : Nat) (img : Image)
    (hW32 : W < 2 ^ 32) (hH32 : H < 2 ^ 32)
    (hw32 : img.width < 2 ^ 32) (hh32 : img.height < 2 ^ 32)
    (hbig : W < img.width ∨ H < img.height) :
    draw canvas W H img = some (bdFill canvas) ∧
    (bdFill canvas).length = canvas.length := by
  refine ⟨?_, bdFill_length canvas⟩
  unfold draw drawLoop
  apply foldlM_opt_id
  intro cv yy hyy
  unfold drawRow
  apply foldlM_opt_id
  intro cw xx hxx
  exact drawPixel_skip_oversized img W H cw yy xx (List.mem_range.mp hxx)
    (List.mem_range.mp hyy) hW32 hH32 hw32 hh32 hbig

/-- C3 witness: the spec's example, a 101-wide foreground on a 100x100
canvas. -/
theorem draw_oversized_no_panic_witness :
    ((100 : Nat) < 2 ^ 32 ∧ (100 : Nat) < 2 ^ 32 ∧ (101 : Nat) < 2 ^ 32 ∧
      (100 : Nat) < 2 ^ 32 ∧ ((100 : Nat) < 101 ∨ (100 : Nat) < 100)) ∧
    (draw (List.replicate 40000 0) 100 100 ⟨101, 100, List.replicate 40400 255⟩
        = some (bdFill (List.replicate 40000 0)) ∧
      (bdFill (List.replicate 40000 0)).length = (List.replicate 40000 (0 : Nat)).length) :=
  ⟨⟨by decide, by decide, by decide, by decide, Or.inl (by decide)⟩,
    draw_oversized_no_panic (List.replicate 40000 0) 100 100
      ⟨101, 100, List.replicate 40400 255⟩ (by decide) (by decide) (by decide)
      (by decide) (Or.inl (by decide))⟩

/-- C7 (confirmed): `draw` is a pure function of the canvas dimensions and
the foreground image; the incoming canvas contents are fully overwritten by
the backdrop fill, so two runs over any two canvases of the proper
`W*H*4` length produce identical output — in particular re-running the
blend on a freshly refilled canvas of the same size reproduces the bytes. -/
theorem draw_deterministic (c1 c2 : List Nat) (W H : Nat) (img : Image)
    (h1 : c1.length = W * H * 4) (h2 : c2.length = W * H * 4) :
    draw c1 W H img = draw c2 W H img := by
  have hb : bdFill c1 = bdFill c2 := by
    apply List.ext_getElem?
    intro i
    by_cases hi : i < c1.length
    · rw [bdFill_getElem?_backdrop c1 W H h1 i hi,
        bdFill_getElem?_backdrop c2 W H h2 i (by omega)]
    · rw [List.getElem?_eq_none (by rw [bdFill_length]; omega),
        List.getElem?_eq_none (by rw [bdFill_length]; omega)]
  unfold draw
  rw [hb]

/-- C7 witness: two different 16-byte canvases, same 2x2 target and the same
1x1 foreground. -/
theorem draw_deterministic_witness :
    ((List.replicate 16 (0 : Nat)).length = 2 * 2 * 4 ∧
      (List.replicate 16 (9 : Nat)).length = 2 * 2 * 4) ∧
    draw (List.replicate 16 0) 2 2 ⟨1, 1, [255, 0, 0, 128]⟩
      = draw (List.replicate 16 9) 2 2 ⟨1, 1, [255, 0, 0, 128]⟩ :=
  ⟨⟨by decide, by decide⟩,
    draw_deterministic (List.replicate 16 0) (List.replicate 16 9) 2 2
      ⟨1, 1, [255, 0, 0, 128]⟩ (by decide) (by decide)⟩

theorem foldlM_opt_append {α : Type} (f : List Nat → α → Option (List Nat))
    (l1 l2 : List α) : ∀ cv : List Nat,
    (l1 ++ l2).foldlM f cv = (l1.foldlM f cv).bind fun d => l2.foldlM f d := by
  intro cv
  rw [List.foldlM_append]
  rfl

theorem rowcol_inj (Wn r1 k1 r2 k2 : Nat) (h1 : k1 < Wn) (h2 : k2 < Wn)
    (heq : r1 * Wn + k1 = r2 * Wn + k2) : r1 = r2 ∧ k1 = k2 := by
  have e1 : (r1 * Wn + k1) / Wn = r1 := by
    rw [Nat.mul_comm r1 Wn, Nat.mul_add_div (by omega), Nat.div_eq_of_lt h1]
    omega
  have e2 : (r2 * Wn + k2) / Wn = r2 := by
    rw [Nat.mul_comm r2 Wn, Nat.mul_add_div (by omega), Nat.div_eq_of_lt h2]
    omega
  have : r1 = r2 := by rw [← e1, ← e2, heq]
  subst this
  omega

/-- A successful pixel step leaves every byte outside its own destination
pixel unchanged, for any canvas. -/
theorem drawPixel_pres (img : Image) (W H : Nat)
    (hwW : img.width ≤ W) (hhH : img.height ≤ H) (hcap : W * H * 4 < U64)
    (cv : List Nat) (y x : Nat) (hx : x < img.width) (hy : y < img.height)
    (d : List Nat)
    (hd : drawPixel img W H ((W - img.width) / 2) ((H - img.height) / 2) cv y x = some d)
    (t : Nat)
    (ht : t / 4 ≠ ((H - img.height) / 2 + y) * W + ((W - img.width) / 2 + x)) :
    d[t]? = cv[t]? := by
  rw [drawPixel_eq_fits img W H hwW hhH hcap cv y x hx hy] at hd
  rcases h0 : img.pixels[(y * img.width + x) * 4 + 0]? with _ | sr
  · rw [h0] at hd; simp at hd
  rw [h0] at hd
  simp only [Option.some_bind] at hd
  rcases h1 : img.pixels[(y * img.width + x) * 4 + 1]? with _ | sg
  · rw [h1] at hd; simp at hd
  rw [h1] at hd
  simp only [Option.some_bind] at hd
  rcases h2 : img.pixels[(y * img.width + x) * 4 + 2]? with _ | sb
  · rw [h2] at hd; simp at hd
  rw [h2] at hd
  simp only [Option.some_bind] at hd
  rcases h3 : img.pixels[(y * img.width + x) * 4 + 3]? with _ | saB
  · rw [h3] at hd; simp at hd
  rw [h3] at hd
  simp only [Option.some_bind] at hd
  by_cases hz : saB = 0
  · rw [if_pos hz] at hd
    simp at hd
    subst hd
    rfl
  · rw [if_neg hz] at hd
    unfold blendPixel at hd
    rcases g2 : cv[(((H - img.height) / 2 + y) * W + ((W - img.width) / 2 + x)) * 4 + 2]? with _ | dr
    · rw [g2] at hd; simp at hd
    rw [g2] at hd
    simp only [Option.some_bind] at hd
    rcases g1 : cv[(((H - img.height) / 2 + y) * W + ((W - img.width) / 2 + x)) * 4 + 1]? with _ | dg
    · rw [g1] at hd; simp at hd
    rw [g1] at hd
    simp only [Option.some_bind] at hd
    rcases g0 : cv[(((H - img.height) / 2 + y) * W + ((W - img.width) / 2 + x)) * 4 + 0]? with _ | db
    · rw [g0] at hd; simp at hd
    rw [g0] at hd
    simp only [Option.some_bind] at hd
    rcases g3 : cv[(((H - img.height) / 2 + y) * W + ((W - img.width) / 2 + x)) * 4 + 3]? with _ | daB
    · rw [g3] at hd; simp at hd
    rw [g3] at hd
    simp only [Option.some_bind] at hd
    simp only [Option.some.injEq] at hd
    subst hd
    have hne : ∀ k, k < 4 →
        (((H - img.height) / 2 + y) * W + ((W - img.width) / 2 + x)) * 4 + k ≠ t := by
      intro k hk
      omega
    rw [List.getElem?_set_ne (hne 3 (by omega)), List.getElem?_set_ne (hne 0 (by omega)),
      List.getElem?_set_ne (hne 1 (by omega)), List.getElem?_set_ne (hne 2 (by omega))]

/-- A pixel whose source alpha byte is zero is skipped: the canvas is
returned unchanged. -/
theorem drawPixel_alpha0 (img : Image) (W H : Nat)
    (hpl : img.pixels.length = img.width * img.height * 4)
    (hwW : img.width ≤ W) (hhH : img.height ≤ H) (hcap : W * H * 4 < U64)
    (cv : List Nat) (y x : Nat) (hx : x < img.width) (hy : y < img.height)
    (hz : img.pixels[(y * img.width + x) * 4 + 3]? = some 0) :
    drawPixel img W H ((W - img.width) / 2) ((H - img.height) / 2) cv y x
      = some cv := by
  rw [drawPixel_eq_fits img W H hwW hhH hcap cv y x hx hy]
  have hsrcP : y * img.width + x < img.width * img.height :=
    rowcol_lt img.width img.height x y hx hy
  have hsrc : ∀ k, k < 4 → (y * img.width + x) * 4 + k < img.pixels.length := by
    intro k hk
    omega
  rw [List.getElem?_eq_getElem (hsrc 0 (by omega)),
    List.getElem?_eq_getElem (hsrc 1 (by omega)),
    List.getElem?_eq_getElem (hsrc 2 (by omega)), hz]
  simp

/-- A pixel whose source alpha byte is non-zero blends: the result is the
four-byte write of the source-over formula into its destination pixel. -/
theorem drawPixel_write (img : Image) (W H : Nat)
    (hwW : img.width ≤ W) (hhH : img.height ≤ H) (hcap : W * H * 4 < U64)
    (cv : List Nat) (y x : Nat) (hx : x < img.width) (hy : y < img.height)
    (sr sg sb saB : Nat)
    (hsr : img.pixels[(y * img.width + x) * 4 + 0]? = some sr)
    (hsg : img.pixels[(y * img.width + x) * 4 + 1]? = some sg)
    (hsb : img.pixels[(y * img.width + x) * 4 + 2]? = some sb)
    (hsa : img.pixels[(y * img.width + x) * 4 + 3]? = some saB)
    (hz : saB ≠ 0) (dr dg db daB : Nat)
    (hdr : cv[(((H - img.height) / 2 + y) * W + ((W - img.width) / 2 + x)) * 4 + 2]? = some dr)
    (hdg : cv[(((H - img.height) / 2 + y) * W + ((W - img.width) / 2 + x)) * 4 + 1]? = some dg)
    (hdb : cv[(((H - img.height) / 2 + y) * W + ((W - img.width) / 2 + x)) * 4 + 0]? = some db)
    (hda : cv[(((H - img.height) / 2 + y) * W + ((W - img.width) / 2 + x)) * 4 + 3]? = some daB) :
    drawPixel img W H ((W - img.width) / 2) ((H - img.height) / 2) cv y x
      = some ((((cv.set ((((H - img.height) / 2 + y) * W + ((W - img.width) / 2 + x)) * 4 + 2)
          (toU8 (srcOver (sr : ℚ) ((saB : ℚ) / 255) (dr : ℚ) ((daB : ℚ) / 255)))).set
        ((((H - img.height) / 2 + y) * W + ((W - img.width) / 2 + x)) * 4 + 1)
          (toU8 (srcOver (sg : ℚ) ((saB : ℚ) / 255) (dg : ℚ) ((daB : ℚ) / 255)))).set
        ((((H - img.height) / 2 + y) * W + ((W - img.width) / 2 + x)) * 4 + 0)
          (toU8 (srcOver (sb : ℚ) ((saB : ℚ) / 255) (db : ℚ) ((daB : ℚ) / 255)))).set
        ((((H - img.height) / 2 + y) * W + ((W - img.width) / 2 + x)) * 4 + 3)
          (toU8 (outAlpha ((saB : ℚ) / 255) ((daB : ℚ) / 255) * 255))) := by
  rw [drawPixel_eq_fits img W H hwW hhH hcap cv y x hx hy]
  rw [hsr, hsg, hsb, hsa]
  simp only [Option.some_bind]
  rw [if_neg hz]
  unfold blendPixel
  rw [hdr, hdg, hdb, hda]
  simp only [Option.some_bind]

/-- Reading back the four bytes written by the blend's set chain. -/
theorem set4_getElem? (cv : List Nat) (P v2 v1 v0 v3 : Nat)
    (h : P * 4 + 3 < cv.length) :
    ((((cv.set (P * 4 + 2) v2).set (P * 4 + 1) v1).set (P * 4 + 0) v0).set
        (P * 4 + 3) v3)[P * 4 + 0]? = some v0 ∧
    ((((cv.set (P * 4 + 2) v2).set (P * 4 + 1) v1).set (P * 4 + 0) v0).set
        (P * 4 + 3) v3)[P * 4 + 1]? = some v1 ∧
    ((((cv.set (P * 4 + 2) v2).set (P * 4 + 1) v1).set (P * 4 + 0) v0).set
        (P * 4 + 3) v3)[P * 4 + 2]? = some v2 ∧
    ((((cv.set (P * 4 + 2) v2).set (P * 4 + 1) v1).set (P * 4 + 0) v0).set
        (P * 4 + 3) v3)[P * 4 + 3]? = some v3 := by
  refine ⟨?_, ?_, ?_, ?_⟩
  · rw [List.getElem?_set_ne (by omega)]
    exact List.getElem?_set_self (by simp only [List.length_set]; omega)
  · rw [List.getElem?_set_ne (by omega), List.getElem?_set_ne (by omega)]
    exact List.getElem?_set_self (by simp only [List.length_set]; omega)
  · rw [List.getElem?_set_ne (by omega), List.getElem?_set_ne (by omega),
      List.getElem?_set_ne (by omega)]
    exact List.getElem?_set_self (by omega)
  · exact List.getElem?_set_self (by simp only [List.length_set]; omega)

theorem srcOver_full (sc dc da : ℚ) : srcOver sc ((255 : ℚ) / 255) dc da = sc := by
  unfold srcOver outAlpha
  norm_num

theorem outAlpha_full (da : ℚ) : outAlpha ((255 : ℚ) / 255) da = 1 := by
  unfold outAlpha
  norm_num

theorem toU8_byte (n : Nat) (h : n ≤ 255) : toU8 (n : ℚ) = n := by
  unfold toU8
  rw [Int.floor_natCast]
  rw [max_eq_right (by positivity)]
  rw [Int.toNat_natCast]
  omega

theorem toU8_full_alpha : toU8 ((1 : ℚ) * 255) = 255 := by
  rw [show ((1 : ℚ) * 255) = ((255 : Nat) : ℚ) by norm_num]
  exact toU8_byte 255 (by omega)

/-- A row of the fits-case loop succeeds and preserves the canvas length. -/
theorem drawRow_inv (img : Image) (W H : Nat)
    (hpl : img.pixels.length = img.width * img.height * 4)
    (hwW : img.width ≤ W) (hhH : img.height ≤ H) (hcap : W * H * 4 < U64)
    (y : Nat) (hy : y < img.height) (cv : List Nat) (hc : cv.length = W * H * 4) :
    ∃ d, drawRow img W H ((W - img.width) / 2) ((H - img.height) / 2) y cv = some d ∧
      d.length = W * H * 4 := by
  unfold drawRow
  exact foldlM_opt_inv _ (fun cw => cw.length = W * H * 4) (List.range img.width)
    (fun cw x hxm hcw => by
      obtain ⟨d, hd, hlen, _⟩ := drawPixel_step img W H hpl hwW hhH hcap cw hcw y x
        (List.mem_range.mp hxm) hy
      exact ⟨d, hd, hlen⟩) cv hc

/-- A row of the fits-case loop leaves every byte whose pixel is not in that
row's written range unchanged. -/
theorem drawRow_pres (img : Image) (W H : Nat)
    (hwW : img.width ≤ W) (hhH : img.height ≤ H) (hcap : W * H * 4 < U64)
    (y : Nat) (hy : y < img.height) (t : Nat)
    (ht : ∀ x, x < img.width →
      t / 4 ≠ ((H - img.height) / 2 + y) * W + ((W - img.width) / 2 + x)) :
    ∀ cv d, drawRow img W H ((W - img.width) / 2) ((H - img.height) / 2) y cv = some d →
      d[t]? = cv[t]? := by
  intro cv d hd
  unfold drawRow at hd
  exact foldlM_opt_pres _ (List.range img.width) t
    (fun cw x hxm e he => drawPixel_pres img W H hwW hhH hcap cw y x
      (List.mem_range.mp hxm) hy e he t (ht x (List.mem_range.mp hxm)))
    cv d hd

/-- A row other than the target pixel's row leaves the target pixel's four
bytes unchanged. -/
theorem drawRow_pres_other (img : Image) (W H : Nat)
    (hwW : img.width ≤ W) (hhH : img.height ≤ H) (hcap : W * H * 4 < U64)
    (y : Nat) (hy : y < img.height) (y₀ x₀ : Nat)
    (hx₀ : x₀ < img.width) (_hy₀ : y₀ < img.height) (hne : y ≠ y₀)
    (k : Nat) (hk : k < 4) :
    ∀ cv d, drawRow img W H ((W - img.width) / 2) ((H - img.height) / 2) y cv = some d →
      d[(((H - img.height) / 2 + y₀) * W + ((W - img.width) / 2 + x₀)) * 4 + k]?
        = cv[(((H - img.height) / 2 + y₀) * W + ((W - img.width) / 2 + x₀)) * 4 + k]? := by
  apply drawRow_pres img W H hwW hhH hcap y hy
  intro x hx heq
  have hdiv : ((((H - img.height) / 2 + y₀) * W + ((W - img.width) / 2 + x₀)) * 4 + k) / 4
      = ((H - img.height) / 2 + y₀) * W + ((W - img.width) / 2 + x₀) := by
    omega
  rw [hdiv] at heq
  have hcol₀ : (W - img.width) / 2 + x₀ < W := by omega
  have hcol : (W - img.width) / 2 + x < W := by omega
  have := rowcol_inj W ((H - img.height) / 2 + y₀) ((W - img.width) / 2 + x₀)
    ((H - img.height) / 2 + y) ((W - img.width) / 2 + x) hcol₀ hcol heq
  omega

/-- A pixel in the target row but at a different column leaves the target
pixel's four bytes unchanged. -/
theorem drawPixel_pres_other (img : Image) (W H : Nat)
    (hwW : img.width ≤ W) (hhH : img.height ≤ H) (hcap : W * H * 4 < U64)
    (y₀ x₀ x : Nat) (hx : x < img.width) (hy₀ : y₀ < img.height)
    (_hx₀ : x₀ < img.width) (hne : x ≠ x₀) (k : Nat) (hk : k < 4) :
    ∀ cv d, drawPixel img W H ((W - img.width) / 2) ((H - img.height) / 2) cv y₀ x = some d →
      d[(((H - img.height) / 2 + y₀) * W + ((W - img.width) / 2 + x₀)) * 4 + k]?
        = cv[(((H - img.height) / 2 + y₀) * W + ((W - img.width) / 2 + x₀)) * 4 + k]? := by
  intro cv d hd
  apply drawPixel_pres img W H hwW hhH hcap cv y₀ x hx hy₀ d hd
  intro heq
  have hdiv : ((((H - img.height) / 2 + y₀) * W + ((W - img.width) / 2 + x₀)) * 4 + k) / 4
      = ((H - img.height) / 2 + y₀) * W + ((W - img.width) / 2 + x₀) := by
    omega
  rw [hdiv] at heq
  have hcol₀ : (W - img.width) / 2 + x₀ < W := by omega
  have hcol : (W - img.width) / 2 + x < W := by omega
  have := rowcol_inj W ((H - img.height) / 2 + y₀) ((W - img.width) / 2 + x₀)
    ((H - img.height) / 2 + y₀) ((W - img.width) / 2 + x) hcol₀ hcol heq
  omega

/-- Master characterization of one foreground pixel's destination after the
whole fits-case loop over a backdrop-valued canvas: a zero-alpha pixel
leaves its four destination bytes at the backdrop values, a non-zero-alpha
pixel overwrites them with the source-over blend of its source bytes against
the backdrop pixel. -/
theorem drawLoop_master (img : Image) (W H : Nat)
    (hpl : img.pixels.length = img.width * img.height * 4)
    (hwW : img.width ≤ W) (hhH : img.height ≤ H) (hcap : W * H * 4 < U64)
    (cv0 : List Nat) (hc0 : cv0.length = W * H * 4)
    (x₀ y₀ : Nat) (hx₀ : x₀ < img.width) (hy₀ : y₀ < img.height)
    (hb0 : cv0[(((H - img.height) / 2 + y₀) * W + ((W - img.width) / 2 + x₀)) * 4 + 0]? = some 128)
    (hb1 : cv0[(((H - img.height) / 2 + y₀) * W + ((W - img.width) / 2 + x₀)) * 4 + 1]? = some 128)
    (hb2 : cv0[(((H - img.height) / 2 + y₀) * W + ((W - img.width) / 2 + x₀)) * 4 + 2]? = some 128)
    (hb3 : cv0[(((H - img.height) / 2 + y₀) * W + ((W - img.width) / 2 + x₀)) * 4 + 3]? = some 196)
    (saB : Nat) (hsaB : img.pixels[(y₀ * img.width + x₀) * 4 + 3]? = some saB) :
    ∃ out, drawLoop img W H ((W - img.width) / 2) ((H - img.height) / 2) cv0 = some out ∧
      out.length = W * H * 4 ∧
      (saB = 0 →
        (out[(((H - img.height) / 2 + y₀) * W + ((W - img.width) / 2 + x₀)) * 4 + 0]? = some 128 ∧
         out[(((H - img.height) / 2 + y₀) * W + ((W - img.width) / 2 + x₀)) * 4 + 1]? = some 128 ∧
         out[(((H - img.height) / 2 + y₀) * W + ((W - img.width) / 2 + x₀)) * 4 + 2]? = some 128 ∧
         out[(((H - img.height) / 2 + y₀) * W + ((W - img.width) / 2 + x₀)) * 4 + 3]? = some 196)) ∧
      (∀ sr sg sb, saB ≠ 0 →
        img.pixels[(y₀ * img.width + x₀) * 4 + 0]? = some sr →
        img.pixels[(y₀ * img.width + x₀) * 4 + 1]? = some sg →
        img.pixels[(y₀ * img.width + x₀) * 4 + 2]? = some sb →
        (out[(((H - img.height) / 2 + y₀) * W + ((W - img.width) / 2 + x₀)) * 4 + 0]?
            = some (toU8 (srcOver (sb : ℚ) ((saB : ℚ) / 255) ((128 : Nat) : ℚ) (((196 : Nat) : ℚ) / 255))) ∧
         out[(((H - img.height) / 2 + y₀) * W + ((W - img.width) / 2 + x₀)) * 4 + 1]?
            = some (toU8 (srcOver (sg : ℚ) ((saB : ℚ) / 255) ((128 : Nat) : ℚ) (((196 : Nat) : ℚ) / 255))) ∧
         out[(((H - img.height) / 2 + y₀) * W + ((W - img.width) / 2 + x₀)) * 4 + 2]?
            = some (toU8 (srcOver (sr : ℚ) ((saB : ℚ) / 255) ((128 : Nat) : ℚ) (((196 : Nat) : ℚ) / 255))) ∧
         out[(((H - img.height) / 2 + y₀) * W + ((W - img.width) / 2 + x₀)) * 4 + 3]?
            = some (toU8 (outAlpha ((saB : ℚ) / 255) (((196 : Nat) : ℚ) / 255) * 255)))) := by
  have hcol₀ : (W - img.width) / 2 + x₀ < W := by omega
  have hrow₀ : (H - img.height) / 2 + y₀ < H := by omega
  have hPlt : ((H - img.height) / 2 + y₀) * W + ((W - img.width) / 2 + x₀) < W * H :=
    rowcol_lt W H ((W - img.width) / 2 + x₀) ((H - img.height) / 2 + y₀) hcol₀ hrow₀
  have hsP : y₀ * img.width + x₀ < img.width * img.height :=
    rowcol_lt img.width img.height x₀ y₀ hx₀ hy₀
  obtain ⟨A, B, hAB, hAmem, hBmem⟩ := range_split img.height y₀ hy₀
  obtain ⟨cv1, hcv1, hlen1⟩ := foldlM_opt_inv
    (fun cw y => drawRow img W H ((W - img.width) / 2) ((H - img.height) / 2) y cw)
    (fun cw => cw.length = W * H * 4) A
    (fun cw y hym hcw =>
      drawRow_inv img W H hpl hwW hhH hcap y (hAmem y hym).1 cw hcw) cv0 hc0
  have hpresA : ∀ k, k < 4 →
      cv1[(((H - img.height) / 2 + y₀) * W + ((W - img.width) / 2 + x₀)) * 4 + k]?
        = cv0[(((H - img.height) / 2 + y₀) * W + ((W - img.width) / 2 + x₀)) * 4 + k]? := by
    intro k hk
    refine foldlM_opt_pres _ A _ ?_ cv0 cv1 hcv1
    intro cw y hym e he
    exact drawRow_pres_other img W H hwW hhH hcap y (hAmem y hym).1 y₀ x₀ hx₀ hy₀
      (hAmem y hym).2 k hk cw e he
  obtain ⟨A2, B2, hA2B2, hA2mem, hB2mem⟩ := range_split img.width x₀ hx₀
  obtain ⟨cv2, hcv2, hlen2⟩ := foldlM_opt_inv
    (fun cw x => drawPixel img W H ((W - img.width) / 2) ((H - img.height) / 2) cw y₀ x)
    (fun cw => cw.length = W * H * 4) A2
    (fun cw x hxm hcw => by
      obtain ⟨d, hd, hl, _⟩ := drawPixel_step img W H hpl hwW hhH hcap cw hcw y₀ x
        (hA2mem x hxm).1 hy₀
      exact ⟨d, hd, hl⟩) cv1 hlen1
  have hpresA2 : ∀ k, k < 4 →
      cv2[(((H - img.height) / 2 + y₀) * W + ((W - img.width) / 2 + x₀)) * 4 + k]?
        = cv1[(((H - img.height) / 2 + y₀) * W + ((W - img.width) / 2 + x₀)) * 4 + k]? := by
    intro k hk
    refine foldlM_opt_pres _ A2 _ ?_ cv1 cv2 hcv2
    intro cw x hxm e he
    exact drawPixel_pres_other img W H hwW hhH hcap y₀ x₀ x (hA2mem x hxm).1 hy₀ hx₀
      (hA2mem x hxm).2 k hk cw e he
  have hc2_0 : cv2[(((H - img.height) / 2 + y₀) * W + ((W - img.width) / 2 + x₀)) * 4 + 0]? = some 128 := by
    rw [hpresA2 0 (by omega), hpresA 0 (by omega)]; exact hb0
  have hc2_1 : cv2[(((H - img.height) / 2 + y₀) * W + ((W - img.width) / 2 + x₀)) * 4 + 1]? = some 128 := by
    rw [hpresA2 1 (by omega), hpresA 1 (by omega)]; exact hb1
  have hc2_2 : cv2[(((H - img.height) / 2 + y₀) * W + ((W - img.width) / 2 + x₀)) * 4 + 2]? = some 128 := by
    rw [hpresA2 2 (by omega), hpresA 2 (by omega)]; exact hb2
  have hc2_3 : cv2[(((H - img.height) / 2 + y₀) * W + ((W - img.width) / 2 + x₀)) * 4 + 3]? = some 196 := by
    rw [hpresA2 3 (by omega), hpresA 3 (by omega)]; exact hb3
  have tail : ∀ (cvM : List Nat) (v0 v1 v2 v3 : Nat), cvM.length = W * H * 4 →
      drawPixel img W H ((W - img.width) / 2) ((H - img.height) / 2) cv2 y₀ x₀ = some cvM →
      cvM[(((H - img.height) / 2 + y₀) * W + ((W - img.width) / 2 + x₀)) * 4 + 0]? = some v0 →
      cvM[(((H - img.height) / 2 + y₀) * W + ((W - img.width) / 2 + x₀)) * 4 + 1]? = some v1 →
      cvM[(((H - img.height) / 2 + y₀) * W + ((W - img.width) / 2 + x₀)) * 4 + 2]? = some v2 →
      cvM[(((H - img.height) / 2 + y₀) * W + ((W - img.width) / 2 + x₀)) * 4 + 3]? = some v3 →
      ∃ out, drawLoop img W H ((W - img.width) / 2) ((H - img.height) / 2) cv0 = some out ∧
        out.length = W * H * 4 ∧
        out[(((H - img.height) / 2 + y₀) * W + ((W - img.width) / 2 + x₀)) * 4 + 0]? = some v0 ∧
        out[(((H - img.height) / 2 + y₀) * W + ((W - img.width) / 2 + x₀)) * 4 + 1]? = some v1 ∧
        out[(((H - img.height) / 2 + y₀) * W + ((W - img.width) / 2 + x₀)) * 4 + 2]? = some v2 ∧
        out[(((H - img.height) / 2 + y₀) * W + ((W - img.width) / 2 + x₀)) * 4 + 3]? = some v3 := by
    intro cvM v0 v1 v2 v3 hlenM hmid h0 h1 h2 h3
    obtain ⟨cv4, hcv4, hlen4⟩ := foldlM_opt_inv
      (fun cw x => drawPixel img W H ((W - img.width) / 2) ((H - img.height) / 2) cw y₀ x)
      (fun cw => cw.length = W * H * 4) B2
      (fun cw x hxm hcw => by
        obtain ⟨d, hd, hl, _⟩ := drawPixel_step img W H hpl hwW hhH hcap cw hcw y₀ x
          (hB2mem x hxm).1 hy₀
        exact ⟨d, hd, hl⟩) cvM hlenM
    have hpresB2 : ∀ k, k < 4 →
        cv4[(((H - img.height) / 2 + y₀) * W + ((W - img.width) / 2 + x₀)) * 4 + k]?
          = cvM[(((H - img.height) / 2 + y₀) * W + ((W - img.width) / 2 + x₀)) * 4 + k]? := by
      intro k hk
      refine foldlM_opt_pres _ B2 _ ?_ cvM cv4 hcv4
      intro cw x hxm e he
      exact drawPixel_pres_other img W H hwW hhH hcap y₀ x₀ x (hB2mem x hxm).1 hy₀ hx₀
        (hB2mem x hxm).2 k hk cw e he
    have hrow : drawRow img W H ((W - img.width) / 2) ((H - img.height) / 2) y₀ cv1 = some cv4 := by
      unfold drawRow
      rw [hA2B2, foldlM_opt_append, hcv2]
      show (x₀ :: B2).foldlM
        (fun cw x => drawPixel img W H ((W - img.width) / 2) ((H - img.height) / 2) cw y₀ x) cv2
        = some cv4
      rw [List.foldlM_cons]
      rw [hmid]
      show B2.foldlM
        (fun cw x => drawPixel img W H ((W - img.width) / 2) ((H - img.height) / 2) cw y₀ x) cvM
        = some cv4
      exact hcv4
    obtain ⟨out, hout, hlenOut⟩ := foldlM_opt_inv
      (fun cw y => drawRow img W H ((W - img.width) / 2) ((H - img.height) / 2) y cw)
      (fun cw => cw.length = W * H * 4) B
      (fun cw y hym hcw =>
        drawRow_inv img W H hpl hwW hhH hcap y (hBmem y hym).1 cw hcw) cv4 hlen4
    have hpresB : ∀ k, k < 4 →
        out[(((H - img.height) / 2 + y₀) * W + ((W - img.width) / 2 + x₀)) * 4 + k]?
          = cv4[(((H - img.height) / 2 + y₀) * W + ((W - img.width) / 2 + x₀)) * 4 + k]? := by
      intro k hk
      refine foldlM_opt_pres _ B _ ?_ cv4 out hout
      intro cw y hym e he
      exact drawRow_pres_other img W H hwW hhH hcap y (hBmem y hym).1 y₀ x₀ hx₀ hy₀
        (hBmem y hym).2 k hk cw e he
    refine ⟨out, ?_, hlenOut, ?_, ?_, ?_, ?_⟩
    · unfold drawLoop
      rw [hAB, foldlM_opt_append, hcv1]
      show (y₀ :: B).foldlM
        (fun cw y => drawRow img W H ((W - img.width) / 2) ((H - img.height) / 2) y cw) cv1
        = some out
      rw [List.foldlM_cons]
      rw [hrow]
      show B.foldlM
        (fun cw y => drawRow img W H ((W - img.width) / 2) ((H - img.height) / 2) y cw) cv4
        = some out
      exact hout
    · rw [hpresB 0 (by omega), hpresB2 0 (by omega)]; exact h0
    · rw [hpresB 1 (by omega), hpresB2 1 (by omega)]; exact h1
    · rw [hpresB 2 (by omega), hpresB2 2 (by omega)]; exact h2
    · rw [hpresB 3 (by omega), hpresB2 3 (by omega)]; exact h3
  by_cases hz : saB = 0
  · subst hz
    have hmid := drawPixel_alpha0 img W H hpl hwW hhH hcap cv2 y₀ x₀ hx₀ hy₀ hsaB
    obtain ⟨out, hload, hlen, hv0, hv1, hv2, hv3⟩ :=
      tail cv2 128 128 128 196 hlen2 hmid hc2_0 hc2_1 hc2_2 hc2_3
    exact ⟨out, hload, hlen, fun _ => ⟨hv0, hv1, hv2, hv3⟩,
      fun sr sg sb hnz _ _ _ => absurd rfl hnz⟩
  · have hsrc : ∀ k, k < 4 → (y₀ * img.width + x₀) * 4 + k < img.pixels.length := by
      intro k hk
      omega
    obtain ⟨sr0, hsr0⟩ : ∃ v, img.pixels[(y₀ * img.width + x₀) * 4 + 0]? = some v :=
      ⟨_, List.getElem?_eq_getElem (hsrc 0 (by omega))⟩
    obtain ⟨sg0, hsg0⟩ : ∃ v, img.pixels[(y₀ * img.width + x₀) * 4 + 1]? = some v :=
      ⟨_, List.getElem?_eq_getElem (hsrc 1 (by omega))⟩
    obtain ⟨sb0, hsb0⟩ : ∃ v, img.pixels[(y₀ * img.width + x₀) * 4 + 2]? = some v :=
      ⟨_, List.getElem?_eq_getElem (hsrc 2 (by omega))⟩
    have hmid := drawPixel_write img W H hwW hhH hcap cv2 y₀ x₀ hx₀ hy₀ sr0 sg0 sb0 saB
      hsr0 hsg0 hsb0 hsaB hz 128 128 128 196 hc2_2 hc2_1 hc2_0 hc2_3
    have hset := set4_getElem? cv2
      (((H - img.height) / 2 + y₀) * W + ((W - img.width) / 2 + x₀))
      (toU8 (srcOver (sr0 : ℚ) ((saB : ℚ) / 255) ((128 : Nat) : ℚ) (((196 : Nat) : ℚ) / 255)))
      (toU8 (srcOver (sg0 : ℚ) ((saB : ℚ) / 255) ((128 : Nat) : ℚ) (((196 : Nat) : ℚ) / 255)))
      (toU8 (srcOver (sb0 : ℚ) ((saB : ℚ) / 255) ((128 : Nat) : ℚ) (((196 : Nat) : ℚ) / 255)))
      (toU8 (outAlpha ((saB : ℚ) / 255) (((196 : Nat) : ℚ) / 255) * 255))
      (by omega)
    obtain ⟨out, hload, hlen, hv0, hv1, hv2, hv3⟩ :=
      tail _ _ _ _ _ (by simp only [List.length_set]; exact hlen2) hmid
        hset.1 hset.2.1 hset.2.2.1 hset.2.2.2
    refine ⟨out, hload, hlen, fun h0 => absurd h0 hz, ?_⟩
    intro sr sg sb _ hsr hsg hsb
    rw [hsr0] at hsr
    rw [hsg0] at hsg
    rw [hsb0] at hsb
    have esr : sr0 = sr := Option.some.inj hsr
    have esg : sg0 = sg := Option.some.inj hsg
    have esb : sb0 = sb := Option.some.inj hsb
    subst esr
    subst esg
    subst esb
    exact ⟨hv0, hv1, hv2, hv3⟩

/-- A byte whose pixel is not the destination of any foreground pixel is
never written by the fits-case loop. -/
theorem drawLoop_untouched (img : Image) (W H : Nat)
    (hwW : img.width ≤ W) (hhH : img.height ≤ H) (hcap : W * H * 4 < U64)
    (t : Nat)
    (ht : ∀ y, y < img.height → ∀ x, x < img.width →
      t / 4 ≠ ((H - img.height) / 2 + y) * W + ((W - img.width) / 2 + x)) :
    ∀ cv d, drawLoop img W H ((W - img.width) / 2) ((H - img.height) / 2) cv = some d →
      d[t]? = cv[t]? := by
  intro cv d hd
  unfold drawLoop at hd
  exact foldlM_opt_pres _ (List.range img.height) t
    (fun cw y hym e he => drawRow_pres img W H hwW hhH hcap y (List.mem_range.mp hym) t
      (fun x hx => ht y (List.mem_range.mp hym) x hx) cw e he) cv d hd

/-- The fits-case loop always succeeds and preserves the canvas length. -/
theorem drawLoop_success (img : Image) (W H : Nat)
    (hpl : img.pixels.length = img.width * img.height * 4)
    (hwW : img.width ≤ W) (hhH : img.height ≤ H) (hcap : W * H * 4 < U64)
    (cv : List Nat) (hc : cv.length = W * H * 4) :
    ∃ d, drawLoop img W H ((W - img.width) / 2) ((H - img.height) / 2) cv = some d ∧
      d.length = W * H * 4 := by
  unfold drawLoop
  exact foldlM_opt_inv _ (fun cw => cw.length = W * H * 4) (List.range img.height)
    (fun cw y hym hcw =>
      drawRow_inv img W H hpl hwW hhH hcap y (List.mem_range.mp hym) cw hcw) cv hc

/-- C6 (confirmed): a foreground pixel whose alpha byte is exactly zero is
skipped; after the whole blend its destination pixel still holds the
backdrop fill bytes, byte for byte. -/
theorem draw_alpha0_leaves_backdrop (canvas : List Nat) (W H : Nat) (img : Image)
    (hc : canvas.length = W * H * 4)
    (hpl : img.pixels.length = img.width * img.height * 4)
    (hwW : img.width ≤ W) (hhH : img.height ≤ H)
    (hW32 : W < 2 ^ 32) (hH32 : H < 2 ^ 32) (hcap : W * H * 4 < U64)
    (x₀ y₀ : Nat) (hx₀ : x₀ < img.width) (hy₀ : y₀ < img.height)
    (hz : img.pixels[(y₀ * img.width + x₀) * 4 + 3]? = some 0) :
    ∃ out, draw canvas W H img = some out ∧ out.length = W * H * 4 ∧
      ∀ k, k < 4 →
        out[(((H - img.height) / 2 + y₀) * W + ((W - img.width) / 2 + x₀)) * 4 + k]?
          = some (bdByte k) := by
  have hcol₀ : (W - img.width) / 2 + x₀ < W := by omega
  have hrow₀ : (H - img.height) / 2 + y₀ < H := by omega
  have hPlt : ((H - img.height) / 2 + y₀) * W + ((W - img.width) / 2 + x₀) < W * H :=
    rowcol_lt W H ((W - img.width) / 2 + x₀) ((H - img.height) / 2 + y₀) hcol₀ hrow₀
  have hbl := bdFill_length canvas
  have hbd : ∀ k, k < 4 →
      (bdFill canvas)[(((H - img.height) / 2 + y₀) * W + ((W - img.width) / 2 + x₀)) * 4 + k]?
        = some (bdByte k) := by
    intro k hk
    rw [bdFill_getElem?_backdrop canvas W H hc _ (by omega)]
    unfold bdByte
    rw [show ((((H - img.height) / 2 + y₀) * W + ((W - img.width) / 2 + x₀)) * 4 + k) % 4
      = k % 4 from by omega]
  obtain ⟨out, hout, hlen, hzero, _⟩ := drawLoop_master img W H hpl hwW hhH hcap
    (bdFill canvas) (by omega) x₀ y₀ hx₀ hy₀
    (by simpa [bdByte] using hbd 0 (by omega))
    (by simpa [bdByte] using hbd 1 (by omega))
    (by simpa [bdByte] using hbd 2 (by omega))
    (by simpa [bdByte] using hbd 3 (by omega))
    0 hz
  refine ⟨out, ?_, hlen, ?_⟩
  · have hU : U64 = 18446744073709551616 := rfl
    unfold draw
    rw [wsub_of_le W img.width hwW (by omega), wsub_of_le H img.height hhH (by omega)]
    exact hout
  · obtain ⟨h0, h1, h2, h3⟩ := hzero rfl
    intro k hk
    interval_cases k
    · simpa [bdByte] using h0
    · simpa [bdByte] using h1
    · simpa [bdByte] using h2
    · simpa [bdByte] using h3

/-- C6 witness: a 1x1 fully transparent foreground on a 2x2 canvas. -/
theorem draw_alpha0_leaves_backdrop_witness :
    ((List.replicate 16 (0 : Nat)).length = 2 * 2 * 4 ∧
      (⟨1, 1, [10, 20, 30, 0]⟩ : Image).pixels.length = 1 * 1 * 4 ∧
      (1 : Nat) ≤ 2 ∧ (1 : Nat) ≤ 2 ∧ (2 : Nat) < 2 ^ 32 ∧ (2 : Nat) < 2 ^ 32 ∧
      2 * 2 * 4 < U64 ∧ (0 : Nat) < 1 ∧ (0 : Nat) < 1 ∧
      (⟨1, 1, [10, 20, 30, 0]⟩ : Image).pixels[(0 * 1 + 0) * 4 + 3]? = some 0) ∧
    (∃ out, draw (List.replicate 16 0) 2 2 ⟨1, 1, [10, 20, 30, 0]⟩ = some out ∧
      out.length = 2 * 2 * 4 ∧
      ∀ k, k < 4 →
        out[(((2 - (⟨1, 1, [10, 20, 30, 0]⟩ : Image).height) / 2 + 0) * 2 +
          ((2 - (⟨1, 1, [10, 20, 30, 0]⟩ : Image).width) / 2 + 0)) * 4 + k]? = some (bdByte k)) :=
  ⟨⟨by decide, by decide, by decide, by decide, by decide, by decide, by decide,
      by decide, by decide, by decide⟩,
    draw_alpha0_leaves_backdrop (List.replicate 16 0) 2 2 ⟨1, 1, [10, 20, 30, 0]⟩
      (by decide) (by decide) (by decide) (by decide) (by decide) (by decide)
      (by decide) 0 0 (by decide) (by decide) (by decide)⟩

/-- C5 (confirmed): drawing a fully opaque foreground that fits inside the
canvas produces the image centered at `((W-w)/2, (H-h)/2)`: inside that
rectangle each destination pixel carries the source pixel's color channels
(canvas byte order B,G,R against source order R,G,B) with alpha byte 255,
and every pixel outside the rectangle is exactly the backdrop fill
128/128/128/196. -/
theorem draw_centered_full_opacity (canvas : List Nat) (W H : Nat) (img : Image)
    (hc : canvas.length = W * H * 4)
    (hpl : img.pixels.length = img.width * img.height * 4)
    (hwW : img.width ≤ W) (hhH : img.height ≤ H)
    (hW32 : W < 2 ^ 32) (hH32 : H < 2 ^ 32) (hcap : W * H * 4 < U64)
    (hopq : ∀ x, x < img.width → ∀ y, y < img.height →
      img.pixels[(y * img.width + x) * 4 + 3]? = some 255)
    (hbytes : ∀ b ∈ img.pixels, b ≤ 255) :
    ∃ out, draw canvas W H img = some out ∧ out.length = W * H * 4 ∧
      ∀ X Y, X < W → Y < H →
        (((W - img.width) / 2 ≤ X ∧ X < (W - img.width) / 2 + img.width ∧
          (H - img.height) / 2 ≤ Y ∧ Y < (H - img.height) / 2 + img.height) →
          (out[(Y * W + X) * 4 + 0]?
              = img.pixels[((Y - (H - img.height) / 2) * img.width + (X - (W - img.width) / 2)) * 4 + 2]? ∧
           out[(Y * W + X) * 4 + 1]?
              = img.pixels[((Y - (H - img.height) / 2) * img.width + (X - (W - img.width) / 2)) * 4 + 1]? ∧
           out[(Y * W + X) * 4 + 2]?
              = img.pixels[((Y - (H - img.height) / 2) * img.width + (X - (W - img.width) / 2)) * 4 + 0]? ∧
           out[(Y * W + X) * 4 + 3]? = some 255)) ∧
        (¬ ((W - img.width) / 2 ≤ X ∧ X < (W - img.width) / 2 + img.width ∧
            (H - img.height) / 2 ≤ Y ∧ Y < (H - img.height) / 2 + img.height) →
          ∀ k, k < 4 → out[(Y * W + X) * 4 + k]? = some (bdByte k)) := by
  have hU : U64 = 18446744073709551616 := rfl
  have hdraw : draw canvas W H img
      = drawLoop img W H ((W - img.width) / 2) ((H - img.height) / 2) (bdFill canvas) := by
    unfold draw
    rw [wsub_of_le W img.width hwW (by omega), wsub_of_le H img.height hhH (by omega)]
  have hbl := bdFill_length canvas
  obtain ⟨out, hout, hlen⟩ := drawLoop_success img W H hpl hwW hhH hcap (bdFill canvas) (by omega)
  refine ⟨out, by rw [hdraw]; exact hout, hlen, ?_⟩
  intro X Y hX hY
  constructor
  · rintro ⟨hx1, hx2, hy1, hy2⟩
    have hx₀ : X - (W - img.width) / 2 < img.width := by omega
    have hy₀ : Y - (H - img.height) / 2 < img.height := by omega
    have hPlt : Y * W + X < W * H := rowcol_lt W H X Y hX hY
    have hbd : ∀ k, k < 4 →
        (bdFill canvas)[(((H - img.height) / 2 + (Y - (H - img.height) / 2)) * W +
          ((W - img.width) / 2 + (X - (W - img.width) / 2))) * 4 + k]? = some (bdByte k) := by
      intro k hk
      rw [show (H - img.height) / 2 + (Y - (H - img.height) / 2) = Y from by omega,
        show (W - img.width) / 2 + (X - (W - img.width) / 2) = X from by omega]
      rw [bdFill_getElem?_backdrop canvas W H hc _ (by omega)]
      unfold bdByte
      rw [show ((Y * W + X) * 4 + k) % 4 = k % 4 from by omega]
    have hsaB := hopq (X - (W - img.width) / 2) hx₀ (Y - (H - img.height) / 2) hy₀
    have hsP : (Y - (H - img.height) / 2) * img.width + (X - (W - img.width) / 2)
        < img.width * img.height :=
      rowcol_lt img.width img.height (X - (W - img.width) / 2) (Y - (H - img.height) / 2) hx₀ hy₀
    have hsrc : ∀ k, k < 4 →
        ((Y - (H - img.height) / 2) * img.width + (X - (W - img.width) / 2)) * 4 + k
          < img.pixels.length := by
      intro k hk
      omega
    obtain ⟨sr, hsr⟩ : ∃ v, img.pixels[((Y - (H - img.height) / 2) * img.width +
        (X - (W - img.width) / 2)) * 4 + 0]? = some v :=
      ⟨_, List.getElem?_eq_getElem (hsrc 0 (by omega))⟩
    obtain ⟨sg, hsg⟩ : ∃ v, img.pixels[((Y - (H - img.height) / 2) * img.width +
        (X - (W - img.width) / 2)) * 4 + 1]? = some v :=
      ⟨_, List.getElem?_eq_getElem (hsrc 1 (by omega))⟩
    obtain ⟨sb, hsb⟩ : ∃ v, img.pixels[((Y - (H - img.height) / 2) * img.width +
        (X - (W - img.width) / 2)) * 4 + 2]? = some v :=
      ⟨_, List.getElem?_eq_getElem (hsrc 2 (by omega))⟩
    obtain ⟨out2, hout2, _, _, hnz⟩ := drawLoop_master img W H hpl hwW hhH hcap
      (bdFill canvas) (by omega) (X - (W - img.width) / 2) (Y - (H - img.height) / 2) hx₀ hy₀
      (hbd 0 (by omega)) (hbd 1 (by omega)) (hbd 2 (by omega)) (hbd 3 (by omega)) 255 hsaB
    rw [hout] at hout2
    have hoe : out = out2 := Option.some.inj hout2
    subst hoe
    obtain ⟨hv0, hv1, hv2, hv3⟩ := hnz sr sg sb (by omega) hsr hsg hsb
    rw [show (H - img.height) / 2 + (Y - (H - img.height) / 2) = Y from by omega,
      show (W - img.width) / 2 + (X - (W - img.width) / 2) = X from by omega]
      at hv0 hv1 hv2 hv3
    rw [show ((255 : Nat) : ℚ) = (255 : ℚ) from by norm_num] at hv0 hv1 hv2 hv3
    rw [srcOver_full] at hv0 hv1 hv2
    rw [outAlpha_full, toU8_full_alpha] at hv3
    have hsbm : sb ≤ 255 := hbytes sb (List.getElem?_mem hsb)
    have hsgm : sg ≤ 255 := hbytes sg (List.getElem?_mem hsg)
    have hsrm : sr ≤ 255 := hbytes sr (List.getElem?_mem hsr)
    rw [toU8_byte sb hsbm] at hv0
    rw [toU8_byte sg hsgm] at hv1
    rw [toU8_byte sr hsrm] at hv2
    exact ⟨by rw [hv0, hsb], by rw [hv1, hsg], by rw [hv2, hsr], hv3⟩
  · intro hnotrect k hk
    have hPlt : Y * W + X < W * H := rowcol_lt W H X Y hX hY
    have huntouched := drawLoop_untouched img W H hwW hhH hcap ((Y * W + X) * 4 + k)
      ?_ (bdFill canvas) out hout
    · rw [huntouched, bdFill_getElem?_backdrop canvas W H hc _ (by omega)]
      unfold bdByte
      rw [show ((Y * W + X) * 4 + k) % 4 = k % 4 from by omega]
    · intro y hy x hx heq
      rw [show ((Y * W + X) * 4 + k) / 4 = Y * W + X from by omega] at heq
      have hcol : (W - img.width) / 2 + x < W := by omega
      have := rowcol_inj W Y X ((H - img.height) / 2 + y) ((W - img.width) / 2 + x) hX hcol heq
      exact hnotrect ⟨by omega, by omega, by omega, by omega⟩

/-- C5 witness: a 1x1 fully opaque foreground [7,8,9,255] on a 2x2 canvas. -/
theorem draw_centered_full_opacity_witness :
    ((List.replicate 16 (0 : Nat)).length = 2 * 2 * 4 ∧
      (⟨1, 1, [7, 8, 9, 255]⟩ : Image).pixels.length = 1 * 1 * 4 ∧
      (1 : Nat) ≤ 2 ∧ (1 : Nat) ≤ 2 ∧ (2 : Nat) < 2 ^ 32 ∧ (2 : Nat) < 2 ^ 32 ∧
      2 * 2 * 4 < U64 ∧
      (∀ x, x < 1 → ∀ y, y < 1 →
        ([7, 8, 9, 255] : List Nat)[(y * 1 + x) * 4 + 3]? = some 255) ∧
      (∀ b ∈ ([7, 8, 9, 255] : List Nat), b ≤ 255)) ∧
    (∃ out, draw (List.replicate 16 0) 2 2 ⟨1, 1, [7, 8, 9, 255]⟩ = some out ∧
      out.length = 2 * 2 * 4 ∧
      ∀ X Y, X < 2 → Y < 2 →
        (((2 - 1) / 2 ≤ X ∧ X < (2 - 1) / 2 + 1 ∧ (2 - 1) / 2 ≤ Y ∧ Y < (2 - 1) / 2 + 1) →
          (out[(Y * 2 + X) * 4 + 0]?
              = (⟨1, 1, [7, 8, 9, 255]⟩ : Image).pixels[((Y - (2 - 1) / 2) * 1 + (X - (2 - 1) / 2)) * 4 + 2]? ∧
           out[(Y * 2 + X) * 4 + 1]?
              = (⟨1, 1, [7, 8, 9, 255]⟩ : Image).pixels[((Y - (2 - 1) / 2) * 1 + (X - (2 - 1) / 2)) * 4 + 1]? ∧
           out[(Y * 2 + X) * 4 + 2]?
              = (⟨1, 1, [7, 8, 9, 255]⟩ : Image).pixels[((Y - (2 - 1) / 2) * 1 + (X - (2 - 1) / 2)) * 4 + 0]? ∧
           out[(Y * 2 + X) * 4 + 3]? = some 255)) ∧
        (¬ ((2 - 1) / 2 ≤ X ∧ X < (2 - 1) / 2 + 1 ∧ (2 - 1) / 2 ≤ Y ∧ Y < (2 - 1) / 2 + 1) →
          ∀ k, k < 4 → out[(Y * 2 + X) * 4 + k]? = some (bdByte k))) :=
  ⟨⟨by decide, by decide, by decide, by decide, by decide, by decide, by decide,
      by decide, by decide⟩,
    draw_centered_full_opacity (List.replicate 16 0) 2 2 ⟨1, 1, [7, 8, 9, 255]⟩
      (by decide) (by decide) (by decide) (by decide) (by decide) (by decide)
      (by decide)
      (by decide : ∀ x, x < 1 → ∀ y, y < 1 →
        ([7, 8, 9, 255] : List Nat)[(y * 1 + x) * 4 + 3]? = some 255)
      (by decide : ∀ b ∈ ([7, 8, 9, 255] : List Nat), b ≤ 255)⟩
